import Mathlib

/-!
# Money manager backend: filtering, aggregation and the edit lock

A shallow embedding of `src/server.js`.

Modelling conventions.

* A JavaScript `Number` is an IEEE 754 binary64 value.  A finite value is the
  integer `k` with value `k * 2 ^ (-1074)` (every finite double is such a
  multiple, and so is every sum of two of them); addition is the exact integer
  sum rounded to 53 significant bits, ties to even, with overflow to infinity.
  The zero of either sign is `0`: every sum of the handlers starts at `+0`, so
  no `-0` is ever produced, and adding `-0` is adding `0`.
* A stored `amount` is a number other than `NaN` (the schema cast rejects
  `NaN`); `NaN` appears only as a result.
* A count is a natural number: it counts the elements of an array, whose
  length is below `2 ^ 32`, where double arithmetic on integers is exact.
* A `Date` is its epoch value in milliseconds (`Int`); `Invalid Date` is `none`.
* A plain JavaScript object used as a dictionary is an association list in
  insertion order; reading a property is `getProp` (first match).
* The MongoDB collection is the list of its documents; `_id` values are natural
  numbers.
* A request body or query parameter that is absent is `none`.
* A handler runs as one event up to each `await` of a database call that
  changes or gates the state: the save of a `POST` and the registration of its
  timer, the gate of a `PUT` or `DELETE` and its write, are separate events,
  and any other event can take place in between.  `postTransaction`,
  `putTransaction` and `deleteTransaction` are the handlers run with nothing in
  between.
-/

namespace MoneyManager

/-! ## Data model (`transactionSchema`, lines 21-52) -/

abbrev ObjectId := Nat

/-- A number that is not `NaN`: the finite value `k * 2 ^ (-1074)`, or an
infinity with its sign. -/
inductive Amount where
  | fin (k : Int)
  | inf (negative : Bool)
deriving DecidableEq, Repr

/-- A JavaScript number: an amount or `NaN`. -/
inductive JsNum where
  | num (a : Amount)
  | nan
deriving DecidableEq, Repr

/-- Number of halvings that bring `n` to zero, within `fuel` steps. -/
def halvings : Nat → Nat → Nat
  | 0, _ => 0
  | fuel + 1, n => if n = 0 then 0 else halvings fuel (n / 2) + 1

/-- Number of binary digits of a natural number. -/
def bitLength (n : Nat) : Nat :=
  halvings n n

/-- Rounding of a magnitude to 53 significant bits, ties to even: the low
`bitLength n - 53` bits are dropped and the kept part is incremented when the
dropped part is above one half, or is one half and the kept part is odd. -/
def roundNat (n : Nat) : Nat :=
  let shift := bitLength n - 53
  let q := n / 2 ^ shift
  let rem := n % 2 ^ shift
  if 2 ^ shift < 2 * rem ∨ (2 * rem = 2 ^ shift ∧ q % 2 = 1) then (q + 1) * 2 ^ shift
  else q * 2 ^ shift

/-- The double nearest to the exact value `k * 2 ^ (-1074)`; a rounded
magnitude of `2 ^ 1024` or more is an infinity. -/
def Amount.round (k : Int) : Amount :=
  let m := roundNat k.natAbs
  if 2 ^ 2098 ≤ m then Amount.inf (decide (k < 0))
  else if k < 0 then Amount.fin (-(m : Int)) else Amount.fin m

/-- The operator `+` on numbers. -/
def JsNum.add : JsNum → JsNum → JsNum
  | JsNum.num (Amount.fin a), JsNum.num (Amount.fin b) => JsNum.num (Amount.round (a + b))
  | JsNum.num (Amount.inf a), JsNum.num (Amount.inf b) =>
    if a = b then JsNum.num (Amount.inf a) else JsNum.nan
  | JsNum.num (Amount.inf a), JsNum.num (Amount.fin _) => JsNum.num (Amount.inf a)
  | JsNum.num (Amount.fin _), JsNum.num (Amount.inf b) => JsNum.num (Amount.inf b)
  | JsNum.nan, _ => JsNum.nan
  | JsNum.num _, JsNum.nan => JsNum.nan

/-- Unary minus. -/
def JsNum.neg : JsNum → JsNum
  | JsNum.num (Amount.fin k) => JsNum.num (Amount.fin (-k))
  | JsNum.num (Amount.inf b) => JsNum.num (Amount.inf (!b))
  | JsNum.nan => JsNum.nan

/-- The operator `-` on numbers. -/
def JsNum.sub (a b : JsNum) : JsNum :=
  JsNum.add a (JsNum.neg b)

/-- The double `m * 2 ^ (e - 1074)`. -/
def Amount.dyadic (m : Int) (e : Nat) : Amount :=
  Amount.fin (m * ((2 ^ e : Nat) : Int))

/-- The double of an integer. -/
def Amount.ofInt (n : Int) : Amount :=
  Amount.dyadic n 1074

/-- The number of an integer. -/
def JsNum.ofInt (n : Int) : JsNum :=
  JsNum.num (Amount.ofInt n)

/-- The number `0`. -/
def JsNum.zero : JsNum :=
  JsNum.num (Amount.fin 0)

/-- The amount is below zero. -/
def Amount.negative : Amount → Bool
  | Amount.fin k => decide (k < 0)
  | Amount.inf b => b

/-- A stored document of the `Transaction` model. -/
structure Transaction where
  _id : ObjectId
  type : String
  amount : Amount
  description : String
  category : String
  division : String
  timestamp : Int
  canEdit : Bool
deriving DecidableEq, Repr

/-! ## JavaScript objects as dictionaries -/

/-- Property read `o[k]`: the value stored under `k`, `none` for `undefined`. -/
def getProp {α : Type} : List (String × α) → String → Option α
  | [], _ => none
  | (k, v) :: rest, key => if k = key then some v else getProp rest key

/-- Property write `o[k] = v`: overwrite in place, or append a new key. -/
def setProp {α : Type} : List (String × α) → String → α → List (String × α)
  | [], key, v => [(key, v)]
  | (k, w) :: rest, key, v =>
    if k = key then (k, v) :: rest else (k, w) :: setProp rest key v

/-- Own keys of the object, `Object.keys(o)`. -/
def keys {α : Type} (o : List (String × α)) : List String :=
  o.map Prod.fst

/-! ## Aggregation (`app.get('/api/summary')`, lines 186-209) -/

/-- One value of `categoryBreakdown`: `{ amount, count }`. -/
structure Entry where
  amount : JsNum
  count : Nat
deriving DecidableEq, Repr

/-- The reducer `(sum, t) => sum + t.amount` folded from `init`. -/
def addAmounts (init : JsNum) (ts : List Transaction) : JsNum :=
  ts.foldl (fun sum t => JsNum.add sum (JsNum.num t.amount)) init

/-- The call `.reduce((sum, t) => sum + t.amount, 0)` of lines 187 and 188. -/
def sumAmounts (ts : List Transaction) : JsNum :=
  addAmounts JsNum.zero ts

/-- The template literal of line 196 on a kind and a category. -/
def breakdownKey (kind category : String) : String :=
  kind ++ "-" ++ category

/-- The key of line 196 for a document. -/
def categoryKey (t : Transaction) : String :=
  breakdownKey t.type t.category

/-- Body of the first `forEach` (lines 196-201): create the entry when the key
reads falsy, then add to `amount` and `count`.  An entry is an object, hence
truthy, and every key contains `-`, so no inherited property is ever read. -/
def categoryStep (cb : List (String × Entry)) (t : Transaction) : List (String × Entry) :=
  let key := categoryKey t
  let cb1 := match getProp cb key with
    | none => setProp cb key ⟨JsNum.zero, 0⟩
    | some _ => cb
  match getProp cb1 key with
  | some e => setProp cb1 key ⟨JsNum.add e.amount (JsNum.num t.amount), e.count + 1⟩
  | none => cb1

/-- Body of the second `forEach` (line 206): `divisionBreakdown[t.division] += t.amount`.
A division that is not a key reads `undefined`, and `undefined + amount` is `NaN`.
Divisions that name an inherited property (`constructor`, `toString`, ...) are
not modelled. -/
def divisionStep (db : List (String × JsNum)) (t : Transaction) :
    List (String × JsNum) :=
  match getProp db t.division with
  | some v => setProp db t.division (JsNum.add v (JsNum.num t.amount))
  | none => setProp db t.division JsNum.nan

/-- The response object of `GET /api/summary`. -/
structure Summary where
  totalIncome : JsNum
  totalExpense : JsNum
  transactionCount : Nat
  categoryBreakdown : List (String × Entry)
  divisionBreakdown : List (String × JsNum)
  netBalance : JsNum
deriving DecidableEq, Repr

/-- Lines 186-209: the summary of the documents returned by `find`. -/
def summarize (transactions : List Transaction) : Summary :=
  let totalIncome := sumAmounts (transactions.filter (fun t => t.type = "income"))
  let totalExpense := sumAmounts (transactions.filter (fun t => t.type = "expense"))
  { totalIncome := totalIncome
    totalExpense := totalExpense
    transactionCount := transactions.length
    categoryBreakdown := transactions.foldl categoryStep []
    divisionBreakdown :=
      (transactions.filter (fun t => t.type = "expense")).foldl divisionStep
        [("office", JsNum.zero), ("personal", JsNum.zero)]
    netBalance := JsNum.sub totalIncome totalExpense }

/-! ## Filter engine (lines 61-99 and 173-184) -/

/-- The destructured `req.query`. -/
structure Query where
  period : Option String
  division : Option String
  category : Option String
  startDate : Option String
  endDate : Option String
deriving DecidableEq, Repr

/-- JavaScript truthiness of a query value: `undefined` and `''` are falsy. -/
def truthy : Option String → Bool
  | none => false
  | some v => decide (v ≠ "")

/-- The object stored under `filter.timestamp`; a bound is `none` when its key
is missing, and `some none` when it holds `Invalid Date`. -/
structure DateFilter where
  gte : Option (Option Int)
  lte : Option (Option Int)
deriving DecidableEq, Repr

/-- The `filter` object handed to `Transaction.find`. -/
structure Filter where
  division : Option String
  category : Option String
  timestamp : Option DateFilter
deriving DecidableEq, Repr

/-- The `Date` built-ins the list handler calls: `new Date(string)` (`none` is
`Invalid Date`), and the local-time constructors of lines 82 and 85 applied to
the current instant. -/
structure DateLib where
  parse : String → Option Int
  monthStart : Int → Int
  yearStart : Int → Int

/-- Lines 64-71 (and 176-182): the division and category constraints. -/
def applyFilters (division category : Option String) (filter : Filter) : Filter :=
  let filter :=
    if truthy division && decide (division ≠ some "all") then
      { filter with division := division }
    else filter
  if truthy category && decide (category ≠ some "all") then
    { filter with category := category }
  else filter

/-- Lines 75-87: the `dateFilter` object selected by `period`. -/
def periodFilter (lib : DateLib) (now : Int) (period : String) : DateFilter :=
  if period = "weekly" then
    { gte := some (some (now - 7 * 24 * 60 * 60 * 1000)), lte := none }
  else if period = "monthly" then
    { gte := some (some (lib.monthStart now)), lte := none }
  else if period = "yearly" then
    { gte := some (some (lib.yearStart now)), lte := none }
  else { gte := none, lte := none }

/-- Lines 74-92: the `period` block. -/
def applyPeriod (lib : DateLib) (now : Int) (period : Option String) (filter : Filter) :
    Filter :=
  match period with
  | none => filter
  | some p =>
    if p ≠ "" then
      let dateFilter := periodFilter lib now p
      if dateFilter.gte.isSome || dateFilter.lte.isSome then
        { filter with timestamp := some dateFilter }
      else filter
    else filter

/-- Lines 94-99: the explicit range, applied when both values are truthy. -/
def applyRange (lib : DateLib) (startDate endDate : Option String) (filter : Filter) :
    Filter :=
  match startDate, endDate with
  | some sd, some ed =>
    if sd ≠ "" ∧ ed ≠ "" then
      { filter with timestamp := some { gte := some (lib.parse sd), lte := some (lib.parse ed) } }
    else filter
  | _, _ => filter

/-- The filter built by `GET /api/transactions` (lines 61-99). -/
def listFilter (lib : DateLib) (now : Int) (q : Query) : Filter :=
  applyRange lib q.startDate q.endDate
    (applyPeriod lib now q.period
      (applyFilters q.division q.category
        { division := none, category := none, timestamp := none }))

/-- The filter built by `GET /api/summary` (lines 173-182). -/
def summaryFilter (q : Query) : Filter :=
  applyFilters q.division q.category
    { division := none, category := none, timestamp := none }

/-- Equality match of one string path of the filter. -/
def matchesString (constraint : Option String) (value : String) : Bool :=
  match constraint with
  | none => true
  | some v => decide (value = v)

/-- A lower bound of the date filter against a stored timestamp. -/
def matchesGte (bound : Option (Option Int)) (ts : Int) : Bool :=
  match bound with
  | none => true
  | some (some b) => decide (b ≤ ts)
  | some none => false

/-- An upper bound of the date filter against a stored timestamp. -/
def matchesLte (bound : Option (Option Int)) (ts : Int) : Bool :=
  match bound with
  | none => true
  | some (some b) => decide (ts ≤ b)
  | some none => false

/-- The temporal part of the query predicate. -/
def matchesTimestamp (constraint : Option DateFilter) (ts : Int) : Bool :=
  match constraint with
  | none => true
  | some d => matchesGte d.gte ts && matchesLte d.lte ts

/-- The MongoDB predicate of a filter: every path that is set must match. -/
def matchesFilter (filter : Filter) (t : Transaction) : Bool :=
  matchesString filter.division t.division &&
  matchesString filter.category t.category &&
  matchesTimestamp filter.timestamp t.timestamp

/-- The filter carries an `Invalid Date`, which the query cast rejects. -/
def castFails (filter : Filter) : Bool :=
  match filter.timestamp with
  | none => false
  | some d => decide (d.gte = some none) || decide (d.lte = some none)

/-- The call `Transaction.find(filter)`: the matching documents, or the cast error. -/
def find (filter : Filter) (docs : List Transaction) : Except String (List Transaction) :=
  if castFails filter then Except.error "Cast to date failed"
  else Except.ok (docs.filter (matchesFilter filter))

/-- The handler `GET /api/summary` (lines 171-215): status and summary. -/
def getSummary (q : Query) (docs : List Transaction) : Except (Nat × String) Summary :=
  match find (summaryFilter q) docs with
  | Except.ok transactions => Except.ok (summarize transactions)
  | Except.error e => Except.error (500, e)

/-! ## Mutations and the edit lock (lines 109-168) -/

/-- A JSON request body restricted to the schema paths (other keys are dropped
by the model's strict mode); a path that is not sent is `none`. -/
structure Body where
  _id : Option ObjectId
  type : Option String
  amount : Option Amount
  description : Option String
  category : Option String
  division : Option String
  timestamp : Option Int
  canEdit : Option Bool
deriving DecidableEq, Repr

/-- What a handler sends: a document, `null`, an `{ error }` object or a
`{ message }` object, each with its HTTP status. -/
inductive Response where
  | doc (status : Nat) (transaction : Transaction)
  | null (status : Nat)
  | error (status : Nat) (error : String)
  | message (status : Nat) (message : String)
deriving DecidableEq, Repr

/-- HTTP status of a response. -/
def Response.status : Response → Nat
  | Response.doc st _ => st
  | Response.null st => st
  | Response.error st _ => st
  | Response.message st _ => st

/-- A request whose handler is suspended at an `await`: a `POST` whose document
is saved and whose timer is not registered yet (line 112), a `PUT` or a
`DELETE` that has passed its gate and has not written yet (lines 138, 163). -/
inductive Pending where
  | post (transaction : Transaction)
  | put (id : ObjectId) (body : Body)
  | delete (id : ObjectId)
deriving DecidableEq, Repr

/-- The process and its database: the documents of the collection, the
pending `setTimeout` callbacks, each with the document it targets and the
instant it becomes due, and the requests suspended between gate and write. -/
structure Server where
  docs : List Transaction
  timers : List (ObjectId × Int)
  inflight : List Pending
deriving DecidableEq, Repr

/-- The delay of line 117. -/
def lockDelay : Int := 12 * 60 * 60 * 1000

/-- The enum validator of `division` (line 41): it accepts a missing value. -/
def divisionValid : Option String → Bool
  | none => true
  | some d => decide (d = "office") || decide (d = "personal")

/-- The call `new Transaction(req.body)` followed by the validation that `save`
runs (lines 21-52): `required` rejects a missing path and an empty string,
`enum` rejects a value outside its list, and the defaults fill `division`,
`timestamp` and `canEdit`.  The schema declares no `min` for `amount`.
`newId` is the identifier generated when the body gives none. -/
def construct (newId : ObjectId) (now : Int) (body : Body) : Option Transaction :=
  match body.type, body.amount, body.description, body.category with
  | some ty, some am, some de, some ca =>
    if (ty = "income" ∨ ty = "expense") ∧ de ≠ "" ∧ ca ≠ "" ∧
        divisionValid body.division = true then
      some
        { _id := body._id.getD newId
          type := ty
          amount := am
          description := de
          category := ca
          division := body.division.getD "personal"
          timestamp := body.timestamp.getD now
          canEdit := body.canEdit.getD true }
    else none
  | _, _, _, _ => none

/-- The call `Transaction.findById(id)`. -/
def findById (docs : List Transaction) (id : ObjectId) : Option Transaction :=
  docs.find? (fun t => decide (t._id = id))

/-- The write of `findByIdAndUpdate`: the first document with the identifier is
replaced by its image under `f`. -/
def findByIdAndUpdate (docs : List Transaction) (id : ObjectId)
    (f : Transaction → Transaction) : List Transaction :=
  match docs with
  | [] => []
  | t :: rest => if t._id = id then f t :: rest else t :: findByIdAndUpdate rest id f

/-- The write of `findByIdAndDelete`: the first document with the identifier is removed. -/
def findByIdAndDelete (docs : List Transaction) (id : ObjectId) : List Transaction :=
  match docs with
  | [] => []
  | t :: rest => if t._id = id then rest else t :: findByIdAndDelete rest id

/-- The update document `req.body` applied as `$set`: every path of the body
replaces the stored value, no validator runs, and `_id` is left to the caller. -/
def applyPatch (body : Body) (t : Transaction) : Transaction :=
  { _id := t._id
    type := body.type.getD t.type
    amount := body.amount.getD t.amount
    description := body.description.getD t.description
    category := body.category.getD t.category
    division := body.division.getD t.division
    timestamp := body.timestamp.getD t.timestamp
    canEdit := body.canEdit.getD t.canEdit }

/-- First part of `POST /api/transactions` (lines 111-112) at instant `now`:
the document is built, validated and inserted.  A validation failure and a
duplicate `_id` both reach the `catch` (400). -/
def postSave (s : Server) (newId : ObjectId) (now : Int) (body : Body) :
    Except Response (Server × Transaction) :=
  match construct newId now body with
  | none => Except.error (Response.error 400 "Transaction validation failed")
  | some transaction =>
    if (findById s.docs transaction._id).isSome then
      Except.error (Response.error 400 "E11000 duplicate key error")
    else
      Except.ok ({ s with docs := s.docs ++ [transaction] }, transaction)

/-- Second part of `POST /api/transactions` (lines 114-119) at instant `now`:
the lock timer is registered 12 hours ahead and the document is sent. -/
def postResume (s : Server) (now : Int) (transaction : Transaction) : Server × Response :=
  ({ s with timers := s.timers ++ [(transaction._id, now + lockDelay)] },
   Response.doc 201 transaction)

/-- The handler `POST /api/transactions` (lines 109-123) at instant `now`, when
nothing else runs between its save and the registration of its timer. -/
def postTransaction (s : Server) (newId : ObjectId) (now : Int) (body : Body) :
    Server × Response :=
  match postSave s newId now body with
  | Except.error refusal => (s, refusal)
  | Except.ok (saved, transaction) => postResume saved now transaction

/-- First part of `PUT /api/transactions/:id` (lines 128-136): the read and the
gate on the flag it read.  The result is the refusal, or `none` when the
handler goes on to its write. -/
def putGate (s : Server) (id : ObjectId) : Option Response :=
  match findById s.docs id with
  | none => some (Response.error 404 "Transaction not found")
  | some transaction =>
    if !transaction.canEdit then
      some (Response.error 403 "Transaction cannot be edited after 12 hours")
    else none

/-- Second part of `PUT /api/transactions/:id` (lines 138-144): the write, which
tests no flag, and the reply with the document as it is after the write
(`null` when there is none).  The database refuses an update that would give
`_id` another value; that error reaches the `catch` (400). -/
def putWrite (s : Server) (id : ObjectId) (body : Body) : Server × Response :=
  match findById s.docs id with
  | none => (s, Response.null 200)
  | some transaction =>
    if body._id.isSome ∧ body._id ≠ some id then
      (s, Response.error 400 "would modify the immutable field _id")
    else
      ({ s with docs := findByIdAndUpdate s.docs id (applyPatch body) },
       Response.doc 200 (applyPatch body transaction))

/-- The handler `PUT /api/transactions/:id` (lines 126-148) when nothing else
runs between its gate and its write. -/
def putTransaction (s : Server) (id : ObjectId) (body : Body) : Server × Response :=
  match putGate s id with
  | some refusal => (s, refusal)
  | none => putWrite s id body

/-- First part of `DELETE /api/transactions/:id` (lines 153-161): the read and
the gate.  The result is the refusal, or `none` when the handler goes on. -/
def deleteGate (s : Server) (id : ObjectId) : Option Response :=
  match findById s.docs id with
  | none => some (Response.error 404 "Transaction not found")
  | some transaction =>
    if !transaction.canEdit then
      some (Response.error 403 "Transaction cannot be deleted after 12 hours")
    else none

/-- Second part of `DELETE /api/transactions/:id` (lines 163-164): the removal,
which tests no flag, and the reply. -/
def deleteWrite (s : Server) (id : ObjectId) : Server × Response :=
  ({ s with docs := findByIdAndDelete s.docs id },
   Response.message 200 "Transaction deleted successfully")

/-- The handler `DELETE /api/transactions/:id` (lines 151-168) when nothing
else runs between its gate and its removal. -/
def deleteTransaction (s : Server) (id : ObjectId) : Server × Response :=
  match deleteGate s id with
  | some refusal => (s, refusal)
  | none => deleteWrite s id

/-- The callback of lines 115-117 for document `id`, run at instant `now`: it
runs only when such a timer is pending and due, clears `canEdit` on the
document if it still exists, and the timer is spent. -/
def lockTimeout (s : Server) (now : Int) (id : ObjectId) : Server :=
  if s.timers.any (fun p => decide (p.1 = id) && decide (p.2 ≤ now)) then
    { s with
      docs := findByIdAndUpdate s.docs id (fun t => { t with canEdit := false })
      timers := s.timers.eraseP (fun p => decide (p.1 = id) && decide (p.2 ≤ now)) }
  else s

/-- One event of the system.  A `POST` is two events, `create` (the request
arrives, lines 111-112 run) and `createResume` (lines 114-119 run); a `PUT` is
`update` (lines 128-136) and `updateWrite` (lines 138-144); a `DELETE` is
`delete` (lines 153-161) and `deleteWrite` (lines 163-164); `lockTimer` is the
callback of a timer. -/
inductive Action where
  | create (newId : ObjectId) (body : Body)
  | createResume (transaction : Transaction)
  | update (id : ObjectId) (body : Body)
  | updateWrite (id : ObjectId) (body : Body)
  | delete (id : ObjectId)
  | deleteWrite (id : ObjectId)
  | lockTimer (id : ObjectId)
deriving DecidableEq, Repr

/-- The state after one event at instant `now`.  A request that passes its
first part is suspended; its second part is enabled while it is suspended. -/
def step (now : Int) (s : Server) : Action → Server
  | Action.create newId body =>
    match postSave s newId now body with
    | Except.error _ => s
    | Except.ok (saved, transaction) =>
      { saved with inflight := saved.inflight ++ [Pending.post transaction] }
  | Action.createResume transaction =>
    if Pending.post transaction ∈ s.inflight then
      (postResume { s with inflight := s.inflight.erase (Pending.post transaction) } now
        transaction).1
    else s
  | Action.update id body =>
    match putGate s id with
    | some _ => s
    | none => { s with inflight := s.inflight ++ [Pending.put id body] }
  | Action.updateWrite id body =>
    if Pending.put id body ∈ s.inflight then
      (putWrite { s with inflight := s.inflight.erase (Pending.put id body) } id body).1
    else s
  | Action.delete id =>
    match deleteGate s id with
    | some _ => s
    | none => { s with inflight := s.inflight ++ [Pending.delete id] }
  | Action.deleteWrite id =>
    if Pending.delete id ∈ s.inflight then
      (deleteWrite { s with inflight := s.inflight.erase (Pending.delete id) } id).1
    else s
  | Action.lockTimer id => lockTimeout s now id

/-- The server right after start on an empty collection. -/
def Server.init : Server := { docs := [], timers := [], inflight := [] }

/-- States the server reaches from the empty collection. -/
inductive Reachable : Server → Prop where
  | init : Reachable Server.init
  | step (now : Int) (a : Action) (s : Server) : Reachable s → Reachable (step now s a)

/-! ## Reference notions used in the statements -/

/-- The integer value of an amount that is an integer. -/
def Amount.toInt : Amount → Int
  | Amount.fin k => k / ((2 ^ 1074 : Nat) : Int)
  | Amount.inf _ => 0

/-- Exact sum of the integer values of the amounts. -/
def intTotal (ts : List Transaction) : Int :=
  (ts.map (fun t => t.amount.toInt)).sum

/-- Exact sum of the absolute integer values of the amounts. -/
def absTotal (ts : List Transaction) : Nat :=
  (ts.map (fun t => t.amount.toInt.natAbs)).sum

/-- Every amount is an integer, and the absolute values add up to at most
`2 ^ 53`: the range in which every partial sum is a double. -/
def exactRange (ts : List Transaction) : Prop :=
  (∀ t ∈ ts, t.amount = Amount.ofInt t.amount.toInt) ∧ absTotal ts ≤ 2 ^ 53

instance (ts : List Transaction) : Decidable (exactRange ts) := by
  unfold exactRange; infer_instance

/-- The documents with a given kind and category. -/
def withKindCategory (kind category : String) (ts : List Transaction) : List Transaction :=
  ts.filter (fun t => decide (t.type = kind ∧ t.category = category))

/-- The expense documents of a given division. -/
def expensesOf (division : String) (ts : List Transaction) : List Transaction :=
  ts.filter (fun t => decide (t.type = "expense" ∧ t.division = division))

/-- The count stored under a key, 0 when the key is absent. -/
def entryCount (o : List (String × Entry)) (k : String) : Nat :=
  match getProp o k with
  | some e => e.count
  | none => 0

/-- Key-wise sum of two optional entries, an absent one counting as zero. -/
def mergeEntry : Option Entry → Option Entry → Option Entry
  | none, none => none
  | some a, none => some a
  | none, some b => some b
  | some a, some b => some ⟨JsNum.add a.amount b.amount, a.count + b.count⟩

/-- Reference condition on a create body: kind income or expense, an amount,
a non-empty description, a non-empty category, and a division that is absent,
`office` or `personal`. -/
def bodyValid (body : Body) : Prop :=
  (body.type = some "income" ∨ body.type = some "expense") ∧
  body.amount ≠ none ∧
  (body.description ≠ none ∧ body.description ≠ some "") ∧
  (body.category ≠ none ∧ body.category ≠ some "") ∧
  (body.division = none ∨ body.division = some "office" ∨ body.division = some "personal")

instance (body : Body) : Decidable (bodyValid body) := by
  unfold bodyValid; infer_instance

/-- Reference condition for create to succeed: a valid body whose identifier
(the one sent, else the generated one) is not stored yet. -/
def createAccepts (s : Server) (newId : ObjectId) (body : Body) : Prop :=
  bodyValid body ∧ findById s.docs (body._id.getD newId) = none

instance (s : Server) (newId : ObjectId) (body : Body) :
    Decidable (createAccepts s newId body) := by
  unfold createAccepts; infer_instance

/-! ## Sample data -/

/-- A document of the given kind, category, division and amount. -/
def sampleDoc (id : ObjectId) (kind category division : String) (amount : Amount) :
    Transaction :=
  { _id := id, type := kind, amount := amount, description := "sample", category := category,
    division := division, timestamp := 0, canEdit := true }

/-- The income document of the summary scenario. -/
def scenarioIncome : Transaction :=
  { _id := 1, type := "income", amount := Amount.ofInt 1000, description := "pay",
    category := "salary", division := "personal", timestamp := 0, canEdit := true }

/-- The expense document of the summary scenario. -/
def scenarioExpense : Transaction :=
  { _id := 2, type := "expense", amount := Amount.ofInt 300, description := "lunch",
    category := "food", division := "office", timestamp := 0, canEdit := true }

/-- Three incomes of `2 ^ 53`, 1 and 1. -/
def largeIncomes : List Transaction :=
  [sampleDoc 1 "income" "salary" "personal" (Amount.ofInt 9007199254740992),
   sampleDoc 2 "income" "salary" "personal" (Amount.ofInt 1),
   sampleDoc 3 "income" "salary" "personal" (Amount.ofInt 1)]

/-- Three office expenses of `2 ^ 53`, 1 and 1. -/
def largeExpenses : List Transaction :=
  [sampleDoc 1 "expense" "rent" "office" (Amount.ofInt 9007199254740992),
   sampleDoc 2 "expense" "rent" "office" (Amount.ofInt 1),
   sampleDoc 3 "expense" "rent" "office" (Amount.ofInt 1)]

/-- The double written `0.1`. -/
def tenth : Amount := Amount.dyadic 3602879701896397 1019

/-- The double written `0.2`. -/
def fifth : Amount := Amount.dyadic 3602879701896397 1020

/-- The double written `0.3`. -/
def threeTenths : Amount := Amount.dyadic 5404319552844595 1020

/-- One income of 0.1. -/
def fractionA : List Transaction :=
  [sampleDoc 1 "income" "salary" "personal" tenth]

/-- Two incomes of 0.2 and 0.3. -/
def fractionB : List Transaction :=
  [sampleDoc 2 "income" "salary" "personal" fifth,
   sampleDoc 3 "income" "salary" "personal" threeTenths]

/-- A document whose kind, stored by an update, is outside the schema enum. -/
def collidingDoc : Transaction :=
  sampleDoc 1 "income-a" "b" "personal" (Amount.ofInt 5)

/-- The `Date` built-ins as they answer for an instant within January 1970
(UTC) and for the two date strings used in the examples. -/
def epochDateLib : DateLib :=
  { parse := fun str =>
      if str = "1970-01-01T00:00:00.000Z" then some 0
      else if str = "1970-01-02T00:00:00.000Z" then some 86400000
      else none
    monthStart := fun _ => 0
    yearStart := fun _ => 0 }

/-- A list query with an explicit range and a period. -/
def rangeQuery : Query :=
  { period := some "monthly", division := none, category := none,
    startDate := some "1970-01-01T00:00:00.000Z", endDate := some "1970-01-02T00:00:00.000Z" }

/-- A list query whose `startDate` is sent empty, together with a period. -/
def emptyStartQuery : Query :=
  { period := some "weekly", division := none, category := none,
    startDate := some "", endDate := some "1970-01-02T00:00:00.000Z" }

/-- A query whose `division` is sent empty. -/
def emptyDivisionQuery : Query :=
  { period := none, division := some "", category := none,
    startDate := none, endDate := none }

/-- A valid create body whose `timestamp` is sent as the epoch. -/
def backdatedBody : Body :=
  { _id := none, type := some "expense", amount := some (Amount.ofInt 300),
    description := some "lunch", category := some "food", division := none,
    timestamp := some 0, canEdit := none }

/-- The document stored for `backdatedBody` under the generated identifier 1. -/
def backdatedDoc : Transaction :=
  { _id := 1, type := "expense", amount := Amount.ofInt 300, description := "lunch",
    category := "food", division := "personal", timestamp := 0, canEdit := true }

/-- The server after `backdatedBody` is posted, saved and its timer registered
at instant 50,000,000 ms on an empty collection. -/
def backdatedServer : Server :=
  step 50000000 (step 50000000 Server.init (Action.create 1 backdatedBody))
    (Action.createResume backdatedDoc)

/-- A patch that sets `amount` only. -/
def amountPatch : Body :=
  { _id := none, type := none, amount := some (Amount.ofInt 1), description := none,
    category := none, division := none, timestamp := none, canEdit := none }

/-- A patch that sets `timestamp` only. -/
def timestampPatch : Body :=
  { _id := none, type := none, amount := none, description := none, category := none,
    division := none, timestamp := some 5, canEdit := none }

/-- A patch that sets `canEdit` to true. -/
def unlockPatch : Body :=
  { _id := none, type := none, amount := none, description := none, category := none,
    division := none, timestamp := none, canEdit := some true }

/-- A valid create body that sends `canEdit: false`. -/
def lockedBody : Body :=
  { _id := none, type := some "income", amount := some (Amount.ofInt 1000),
    description := some "pay", category := some "salary", division := some "office",
    timestamp := none, canEdit := some false }

/-- The document stored for `lockedBody` at instant 0 under the generated identifier 1. -/
def lockedDoc : Transaction :=
  { _id := 1, type := "income", amount := Amount.ofInt 1000, description := "pay",
    category := "salary", division := "office", timestamp := 0, canEdit := false }

/-- The server after `lockedBody` is posted, saved and its timer registered at
instant 0 on an empty collection. -/
def lockedServer : Server :=
  step 0 (step 0 Server.init (Action.create 1 lockedBody)) (Action.createResume lockedDoc)

/-- A create body with a negative amount and no division. -/
def negativeBody : Body :=
  { _id := none, type := some "expense", amount := some (Amount.ofInt (-5)),
    description := some "refund", category := some "food", division := none,
    timestamp := none, canEdit := none }

/-- The document stored for `negativeBody` at instant 0 under the generated identifier 1. -/
def negativeDoc : Transaction :=
  { _id := 1, type := "expense", amount := Amount.ofInt (-5), description := "refund",
    category := "food", division := "personal", timestamp := 0, canEdit := true }

/-- A `PUT` with `canEdit: true` is suspended after its gate on the record
posted at instant 0, and the record's lock timer then runs at its due instant:
the record is stored with the flag false while the write is still to come. -/
def raceServer : Server :=
  step 43200000
    (step 1
      (step 0 (step 0 Server.init (Action.create 1 backdatedBody))
        (Action.createResume backdatedDoc))
      (Action.update 1 unlockPatch))
    (Action.lockTimer 1)

/-! ## Lemmas on double arithmetic -/

/-- With enough fuel the halvings count the binary digits. -/
theorem halvings_spec (fuel n : Nat) (h : n ≤ fuel) :
    n < 2 ^ halvings fuel n ∧ ∀ k : Nat, k + 1 ≤ halvings fuel n → 2 ^ k ≤ n := by
  induction fuel generalizing n with
  | zero =>
    have h0 : n = 0 := Nat.le_zero.mp h
    subst h0
    exact ⟨by simp [halvings], fun k hk => by simp [halvings] at hk⟩
  | succ fuel ih =>
    by_cases h0 : n = 0
    · subst h0
      exact ⟨by simp [halvings], fun k hk => by simp [halvings] at hk⟩
    · have hhalf : n / 2 ≤ fuel := by omega
      obtain ⟨ih1, ih2⟩ := ih (n / 2) hhalf
      have heq : halvings (fuel + 1) n = halvings fuel (n / 2) + 1 := by
        simp [halvings, h0]
      rw [heq]
      refine ⟨?_, ?_⟩
      · rw [Nat.pow_succ]; omega
      · intro k hk
        cases k with
        | zero => simp only [Nat.pow_zero]; omega
        | succ j =>
          have hj := ih2 j (by omega)
          rw [Nat.pow_succ]; omega

theorem bitLength_le (n k : Nat) (h : n < 2 ^ k) : bitLength n ≤ k := by
  by_contra hlt
  have := (halvings_spec n n (Nat.le_refl n)).2 k (by unfold bitLength at hlt; omega)
  omega

theorem le_of_bitLength (n k : Nat) (h : k + 1 ≤ bitLength n) : 2 ^ k ≤ n :=
  (halvings_spec n n (Nat.le_refl n)).2 k h

/-- A magnitude whose dropped bits are all zero is its own rounding. -/
theorem roundNat_of_dvd (n : Nat) (h : 2 ^ (bitLength n - 53) ∣ n) : roundNat n = n := by
  unfold roundNat
  have hrem : n % 2 ^ (bitLength n - 53) = 0 := Nat.mod_eq_zero_of_dvd h
  have hpos : 0 < 2 ^ (bitLength n - 53) := Nat.two_pow_pos _
  simp only [hrem, Nat.mul_zero]
  rw [if_neg]
  · exact Nat.div_mul_cancel h
  · rintro (h1 | ⟨h1, _⟩)
    · exact absurd h1 (Nat.not_lt_zero _)
    · omega

theorem roundNat_scaled (m e : Nat) (hm : m ≤ 2 ^ 53) : roundNat (m * 2 ^ e) = m * 2 ^ e := by
  apply roundNat_of_dvd
  have hlt : m * 2 ^ e < 2 ^ (54 + e) := by
    rw [Nat.pow_add]
    apply Nat.mul_lt_mul_of_lt_of_le (by omega) (Nat.le_refl _) (Nat.two_pow_pos _)
  have hbl := bitLength_le _ _ hlt
  by_cases hs : bitLength (m * 2 ^ e) - 53 ≤ e
  · exact Dvd.dvd.mul_left (Nat.pow_dvd_pow 2 hs) m
  · have hge : 2 ^ (53 + e) ≤ m * 2 ^ e := le_of_bitLength _ _ (by omega)
    rw [Nat.pow_add] at hge
    have hm2 : 2 ^ 53 ≤ m := Nat.le_of_mul_le_mul_right hge (Nat.two_pow_pos _)
    have hmeq : m = 2 ^ 53 := Nat.le_antisymm hm hm2
    have hsh : bitLength (m * 2 ^ e) - 53 ≤ e + 1 := by omega
    have hdvd : 2 ^ (bitLength (m * 2 ^ e) - 53) ∣ 2 ^ (53 + e) :=
      Nat.pow_dvd_pow 2 (by omega)
    exact Dvd.dvd.trans hdvd (by rw [hmeq, ← Nat.pow_add])

/-- An integer of magnitude at most `2 ^ 53`, scaled by a power of two within
the exponent range, is a double. -/
theorem round_scaled (z : Int) (e : Nat) (hz : z.natAbs ≤ 2 ^ 53) (he : e ≤ 2044) :
    Amount.round (z * ((2 ^ e : Nat) : Int)) = Amount.dyadic z e := by
  have hnat : (z * ((2 ^ e : Nat) : Int)).natAbs = z.natAbs * 2 ^ e := by
    rw [Int.natAbs_mul, Int.natAbs_ofNat]
  have hround := roundNat_scaled z.natAbs e hz
  have hsmall : ¬ 2 ^ 2098 ≤ z.natAbs * 2 ^ e := by
    have h1 : z.natAbs * 2 ^ e ≤ 2 ^ 53 * 2 ^ e := Nat.mul_le_mul_right _ hz
    have key : ∀ n : Nat, 53 + e < n → 2 ^ (53 + e) < 2 ^ n :=
      fun n hn => Nat.pow_lt_pow_right Nat.one_lt_two hn
    have h2 : 2 ^ (53 + e) < 2 ^ 2098 := key 2098 (by omega)
    rw [Nat.pow_add] at h2
    exact Nat.not_le.mpr (Nat.lt_of_le_of_lt h1 h2)
  unfold Amount.round Amount.dyadic
  simp only [hnat, hround, hsmall, if_false]
  have hpos : (0 : Int) < ((2 ^ e : Nat) : Int) := by exact_mod_cast Nat.two_pow_pos e
  by_cases hneg : z < 0
  · have h1 : z * ((2 ^ e : Nat) : Int) < 0 := Int.mul_neg_of_neg_of_pos hneg hpos
    rw [if_pos h1]
    congr 1
    push_cast
    rw [abs_of_neg hneg]; ring
  · have h1 : ¬ z * ((2 ^ e : Nat) : Int) < 0 := by
      have : 0 ≤ z * ((2 ^ e : Nat) : Int) := Int.mul_nonneg (by omega) (le_of_lt hpos)
      omega
    rw [if_neg h1]
    congr 1
    push_cast
    rw [abs_of_nonneg (by omega)]

/-- Addition of integers is exact while the sum stays within `2 ^ 53`. -/
theorem add_ofInt (a b : Int) (h : (a + b).natAbs ≤ 2 ^ 53) :
    JsNum.add (JsNum.ofInt a) (JsNum.ofInt b) = JsNum.ofInt (a + b) := by
  simp only [JsNum.ofInt, Amount.ofInt, Amount.dyadic, JsNum.add]
  rw [← Int.add_mul, round_scaled _ _ h (by decide)]
  rfl

/-- Subtraction of integers is exact while the difference stays within `2 ^ 53`. -/
theorem sub_ofInt (a b : Int) (h : (a - b).natAbs ≤ 2 ^ 53) :
    JsNum.sub (JsNum.ofInt a) (JsNum.ofInt b) = JsNum.ofInt (a - b) := by
  have hneg : JsNum.neg (JsNum.ofInt b) = JsNum.ofInt (-b) := by
    simp only [JsNum.ofInt, Amount.ofInt, Amount.dyadic, JsNum.neg, Int.neg_mul]
  rw [JsNum.sub, hneg, add_ofInt a (-b) (by rw [← Int.sub_eq_add_neg]; exact h),
    ← Int.sub_eq_add_neg]

theorem zero_eq_ofInt : JsNum.zero = JsNum.ofInt 0 := by
  show JsNum.num (Amount.fin 0) = JsNum.num (Amount.fin (0 * _))
  rw [Int.zero_mul]

theorem natAbs_intTotal_le (ts : List Transaction) : (intTotal ts).natAbs ≤ absTotal ts := by
  induction ts with
  | nil => simp [intTotal, absTotal]
  | cons t rest ih =>
    simp only [intTotal, absTotal, List.map_cons, List.sum_cons] at ih ⊢
    exact le_trans (Int.natAbs_add_le _ _) (Nat.add_le_add_left ih _)

theorem absTotal_append (xs ys : List Transaction) :
    absTotal (xs ++ ys) = absTotal xs + absTotal ys := by
  simp [absTotal]

theorem intTotal_append (xs ys : List Transaction) :
    intTotal (xs ++ ys) = intTotal xs + intTotal ys := by
  simp [intTotal]

/-- Two filters that never hold together split less than the whole. -/
theorem absTotal_filter_add_le (ts : List Transaction) (p q : Transaction → Bool)
    (h : ∀ t, ¬ (p t = true ∧ q t = true)) :
    absTotal (ts.filter p) + absTotal (ts.filter q) ≤ absTotal ts := by
  induction ts with
  | nil => simp [absTotal]
  | cons t rest ih =>
    have ht := h t
    simp only [absTotal, List.map_cons, List.sum_cons] at ih ⊢
    cases hp : p t <;> cases hq : q t <;>
      simp only [List.filter_cons, hp, hq, if_true, if_false, Bool.false_eq_true,
        List.map_cons, List.sum_cons] <;>
      first
        | omega
        | (exfalso; exact ht ⟨hp, hq⟩)

theorem absTotal_filter_le (ts : List Transaction) (p : Transaction → Bool) :
    absTotal (ts.filter p) ≤ absTotal ts := by
  have := absTotal_filter_add_le ts p (fun _ => false) (by simp)
  omega

theorem exactRange_filter (ts : List Transaction) (p : Transaction → Bool)
    (h : exactRange ts) : exactRange (ts.filter p) :=
  ⟨fun t ht => h.1 t (List.mem_filter.mp ht).1,
   le_trans (absTotal_filter_le ts p) h.2⟩

theorem exactRange_append (xs ys : List Transaction) (h : exactRange (xs ++ ys)) :
    exactRange xs ∧ exactRange ys := by
  obtain ⟨hw, hb⟩ := h
  rw [absTotal_append] at hb
  exact ⟨⟨fun t ht => hw t (List.mem_append_left _ ht), by omega⟩,
         ⟨fun t ht => hw t (List.mem_append_right _ ht), by omega⟩⟩

/-- The reducer is exact on integer amounts while the absolute values, the
starting value included, stay within `2 ^ 53`. -/
theorem addAmounts_exact (ts : List Transaction) (z : Int)
    (hw : ∀ t ∈ ts, t.amount = Amount.ofInt t.amount.toInt)
    (hb : z.natAbs + absTotal ts ≤ 2 ^ 53) :
    addAmounts (JsNum.ofInt z) ts = JsNum.ofInt (z + intTotal ts) := by
  induction ts generalizing z with
  | nil => simp [addAmounts, intTotal]
  | cons t rest ih =>
    have ht := hw t (List.mem_cons_self _ _)
    have hrest : ∀ u ∈ rest, u.amount = Amount.ofInt u.amount.toInt :=
      fun u hu => hw u (List.mem_cons_of_mem _ hu)
    simp only [absTotal, List.map_cons, List.sum_cons] at hb
    have hstep : (z + t.amount.toInt).natAbs ≤ z.natAbs + t.amount.toInt.natAbs :=
      Int.natAbs_add_le _ _
    have hadd : JsNum.add (JsNum.ofInt z) (JsNum.num t.amount) =
        JsNum.ofInt (z + t.amount.toInt) := by
      have h2 : JsNum.num t.amount = JsNum.ofInt t.amount.toInt := by
        rw [JsNum.ofInt, ← ht]
      rw [h2]
      exact add_ofInt z t.amount.toInt (by omega)
    have hfold : addAmounts (JsNum.ofInt z) (t :: rest) =
        addAmounts (JsNum.add (JsNum.ofInt z) (JsNum.num t.amount)) rest := rfl
    rw [hfold, hadd, ih _ hrest (by simp only [absTotal]; omega)]
    simp only [intTotal, List.map_cons, List.sum_cons]
    rw [Int.add_assoc]

theorem sumAmounts_exact (ts : List Transaction) (h : exactRange ts) :
    sumAmounts ts = JsNum.ofInt (intTotal ts) := by
  rw [sumAmounts, zero_eq_ofInt, addAmounts_exact ts 0 h.1 (by simpa using h.2)]
  simp

/-! ## Lemmas on dictionaries and folds -/

theorem getProp_setProp {α : Type} (o : List (String × α)) (k k' : String) (v : α) :
    getProp (setProp o k v) k' = if k = k' then some v else getProp o k' := by
  induction o with
  | nil => simp [setProp, getProp]
  | cons p rest ih =>
    obtain ⟨k0, w⟩ := p
    by_cases h0 : k0 = k
    · subst h0
      by_cases h1 : k0 = k' <;> simp [setProp, getProp, h1]
    · by_cases h1 : k0 = k'
      · subst h1
        have h2 : ¬ k = k0 := fun h => h0 h.symm
        simp [setProp, getProp, h0, h2]
      · simp [setProp, getProp, h0, h1, ih]

theorem addAmounts_append (init : JsNum) (xs ys : List Transaction) :
    addAmounts init (xs ++ ys) = addAmounts (addAmounts init xs) ys := by
  simp [addAmounts, List.foldl_append]

/-- Reading a key after one step of the category loop. -/
theorem getProp_categoryStep (cb : List (String × Entry)) (t : Transaction) (k : String) :
    getProp (categoryStep cb t) k =
      if categoryKey t = k then
        some ⟨JsNum.add ((getProp cb k).getD ⟨JsNum.zero, 0⟩).amount (JsNum.num t.amount),
              ((getProp cb k).getD ⟨JsNum.zero, 0⟩).count + 1⟩
      else getProp cb k := by
  unfold categoryStep
  by_cases hk : categoryKey t = k
  · subst hk
    cases h : getProp cb (categoryKey t) with
    | none => simp [h, getProp_setProp]
    | some e => simp [h, getProp_setProp]
  · cases h : getProp cb (categoryKey t) with
    | none => simp [h, getProp_setProp, hk]
    | some e => simp [h, getProp_setProp, hk]

/-- Reading a key after the whole category loop, from any starting object. -/
theorem getProp_foldl_categoryStep (ts : List Transaction) (cb : List (String × Entry))
    (k : String) :
    getProp (ts.foldl categoryStep cb) k =
      if ts.filter (fun t => decide (categoryKey t = k)) = [] then getProp cb k
      else
        some ⟨addAmounts ((getProp cb k).getD ⟨JsNum.zero, 0⟩).amount
                (ts.filter (fun t => decide (categoryKey t = k))),
              ((getProp cb k).getD ⟨JsNum.zero, 0⟩).count +
                (ts.filter (fun t => decide (categoryKey t = k))).length⟩ := by
  induction ts generalizing cb with
  | nil => simp
  | cons t rest ih =>
    rw [List.foldl_cons, ih, getProp_categoryStep]
    by_cases hk : categoryKey t = k
    · by_cases hr : rest.filter (fun t => decide (categoryKey t = k)) = []
      · simp [hk, hr, addAmounts]
      · simp [hk, hr, addAmounts, List.filter_cons]
        omega
    · simp [hk, List.filter_cons]

/-- For the two kinds of the schema the key determines kind and category. -/
theorem breakdownKey_inj (k1 c1 k2 c2 : String)
    (h1 : k1 = "income" ∨ k1 = "expense") (h2 : k2 = "income" ∨ k2 = "expense")
    (h : breakdownKey k1 c1 = breakdownKey k2 c2) : k1 = k2 ∧ c1 = c2 := by
  unfold breakdownKey at h
  have hd := congrArg String.data h
  rcases h1 with h1 | h1 <;> rcases h2 with h2 | h2 <;> subst h1 <;> subst h2 <;>
    simp [String.data_append] at hd
  · exact ⟨rfl, String.ext hd⟩
  · exact ⟨rfl, String.ext hd⟩

/-- Reading a key after one step of the division loop. -/
theorem getProp_divisionStep (db : List (String × JsNum)) (t : Transaction) (k : String) :
    getProp (divisionStep db t) k =
      if t.division = k then
        some (match getProp db k with
          | some v => JsNum.add v (JsNum.num t.amount)
          | none => JsNum.nan)
      else getProp db k := by
  unfold divisionStep
  by_cases hk : t.division = k
  · subst hk
    cases h : getProp db t.division <;> simp [getProp_setProp]
  · cases h : getProp db t.division <;> simp [getProp_setProp, hk]

/-- Reading a key that is present after the whole division loop. -/
theorem getProp_foldl_divisionStep (ts : List Transaction) (db : List (String × JsNum))
    (k : String) (a : JsNum) (h : getProp db k = some a) :
    getProp (ts.foldl divisionStep db) k =
      some (addAmounts a (ts.filter (fun t => decide (t.division = k)))) := by
  induction ts generalizing db a with
  | nil => simp [h, addAmounts]
  | cons t rest ih =>
    rw [List.foldl_cons]
    by_cases hk : t.division = k
    · have h1 : getProp (divisionStep db t) k = some (JsNum.add a (JsNum.num t.amount)) := by
        rw [getProp_divisionStep]; simp [hk, h]
      rw [ih _ _ h1]
      simp [hk, addAmounts, List.filter_cons]
    · have h1 : getProp (divisionStep db t) k = some a := by
        rw [getProp_divisionStep]; simp [hk, h]
      rw [ih _ _ h1]
      simp [hk, List.filter_cons]

/-- The division loop on documents of the two schema divisions keeps the two
keys and adds each amount to its division. -/
theorem foldl_divisionStep_two (ts : List Transaction) (a b : JsNum)
    (h : ∀ t ∈ ts, t.division = "office" ∨ t.division = "personal") :
    ts.foldl divisionStep [("office", a), ("personal", b)] =
      [("office", addAmounts a (ts.filter (fun t => decide (t.division = "office")))),
       ("personal", addAmounts b (ts.filter (fun t => decide (t.division = "personal"))))] := by
  induction ts generalizing a b with
  | nil => simp [addAmounts]
  | cons t rest ih =>
    have ht := h t (List.mem_cons_self _ _)
    have hrest : ∀ u ∈ rest, u.division = "office" ∨ u.division = "personal" :=
      fun u hu => h u (List.mem_cons_of_mem _ hu)
    rw [List.foldl_cons]
    rcases ht with ht | ht
    · have hs : divisionStep [("office", a), ("personal", b)] t =
          [("office", JsNum.add a (JsNum.num t.amount)), ("personal", b)] := by
        simp [divisionStep, ht, getProp, setProp]
      rw [hs, ih _ _ hrest]
      simp [ht, addAmounts, List.filter_cons]
    · have hs : divisionStep [("office", a), ("personal", b)] t =
          [("office", a), ("personal", JsNum.add b (JsNum.num t.amount))] := by
        simp [divisionStep, ht, getProp, setProp]
      rw [hs, ih _ _ hrest]
      simp [ht, addAmounts, List.filter_cons]

theorem expensesOf_eq (d : String) (ts : List Transaction) :
    expensesOf d ts =
      (ts.filter (fun t => decide (t.type = "expense"))).filter
        (fun t => decide (t.division = d)) := by
  simp only [expensesOf, List.filter_filter]
  apply List.filter_congr
  intro t _
  simp only [Bool.decide_and]
  exact Bool.and_comm _ _

theorem categoryKey_filter (rs : List Transaction) (kind category : String)
    (hrs : ∀ r ∈ rs, r.type = "income" ∨ r.type = "expense")
    (hk : kind = "income" ∨ kind = "expense") :
    rs.filter (fun t => decide (categoryKey t = breakdownKey kind category)) =
      withKindCategory kind category rs := by
  unfold withKindCategory
  apply List.filter_congr
  intro t ht
  by_cases h : categoryKey t = breakdownKey kind category
  · have := breakdownKey_inj _ _ _ _ (hrs t ht) hk h
    simp [h, this.1, this.2]
  · have h2 : ¬ (t.type = kind ∧ t.category = category) := by
      rintro ⟨h1, h2⟩
      exact h (by simp [categoryKey, h1, h2])
    simp [h, h2]

/-- In the exact range the three totals are the exact sums. -/
theorem summarize_exact (rs : List Transaction) (hex : exactRange rs) :
    (summarize rs).totalIncome =
        JsNum.ofInt (intTotal (rs.filter (fun t => decide (t.type = "income")))) ∧
    (summarize rs).totalExpense =
        JsNum.ofInt (intTotal (rs.filter (fun t => decide (t.type = "expense")))) ∧
    (summarize rs).netBalance =
        JsNum.ofInt (intTotal (rs.filter (fun t => decide (t.type = "income"))) -
          intTotal (rs.filter (fun t => decide (t.type = "expense")))) ∧
    (intTotal (rs.filter (fun t => decide (t.type = "income")))).natAbs +
      (intTotal (rs.filter (fun t => decide (t.type = "expense")))).natAbs ≤ absTotal rs := by
  have hI : (summarize rs).totalIncome =
      JsNum.ofInt (intTotal (rs.filter (fun t => decide (t.type = "income")))) :=
    sumAmounts_exact _ (exactRange_filter rs _ hex)
  have hE : (summarize rs).totalExpense =
      JsNum.ofInt (intTotal (rs.filter (fun t => decide (t.type = "expense")))) :=
    sumAmounts_exact _ (exactRange_filter rs _ hex)
  have h1 := natAbs_intTotal_le (rs.filter (fun t => decide (t.type = "income")))
  have h2 := natAbs_intTotal_le (rs.filter (fun t => decide (t.type = "expense")))
  have h3 := absTotal_filter_add_le rs (fun t => decide (t.type = "income"))
    (fun t => decide (t.type = "expense")) (by
      intro t ⟨ha, hb⟩
      simp only [decide_eq_true_eq] at ha hb
      rw [ha] at hb
      exact absurd hb (by decide))
  refine ⟨hI, hE, ?_, by omega⟩
  have hN : (summarize rs).netBalance =
      JsNum.sub (summarize rs).totalIncome (summarize rs).totalExpense := rfl
  rw [hN, hI, hE]
  apply sub_ofInt
  have h4 := hex.2
  have h5 := Int.natAbs_sub_le (intTotal (rs.filter (fun t => decide (t.type = "income"))))
    (intTotal (rs.filter (fun t => decide (t.type = "expense"))))
  omega

/-- In the exact range the sum over a concatenation is the double sum of the
two sums. -/
theorem sumAmounts_append_exact (xs ys : List Transaction) (hex : exactRange (xs ++ ys)) :
    sumAmounts (xs ++ ys) = JsNum.add (sumAmounts xs) (sumAmounts ys) := by
  obtain ⟨hx, hy⟩ := exactRange_append xs ys hex
  rw [sumAmounts_exact _ hex, sumAmounts_exact _ hx, sumAmounts_exact _ hy, intTotal_append,
    add_ofInt]
  have h1 := natAbs_intTotal_le xs
  have h2 := natAbs_intTotal_le ys
  have h3 := hex.2
  rw [absTotal_append] at h3
  have h4 := Int.natAbs_add_le (intTotal xs) (intTotal ys)
  omega

/-! ## Aggregation: the claims -/

set_option maxRecDepth 100000

/-- C4 as stated fails: for incomes of `2 ^ 53`, 1 and 1 the summary has
`totalIncome` equal to `2 ^ 53`, while the sum of the amounts is `2 ^ 53 + 2`. -/
theorem summarize_totals_counterexample :
    (summarize largeIncomes).totalIncome = JsNum.ofInt 9007199254740992 ∧
    intTotal (largeIncomes.filter (fun t => decide (t.type = "income"))) = 9007199254740994 ∧
    (summarize largeIncomes).totalIncome ≠
      JsNum.ofInt (intTotal (largeIncomes.filter (fun t => decide (t.type = "income")))) := by
  decide!

/-- C4 amended: for every sequence of records, `transactionCount` is the number
of records, `totalIncome` and `totalExpense` are the amounts of the income and
of the expense records added from 0 in sequence order in double precision, and
`netBalance` is the double difference `totalIncome - totalExpense`.  When every
amount is an integer and the absolute values add up to at most `2 ^ 53`,
`totalIncome` and `totalExpense` are the exact sums over the income and the
expense records and `netBalance` is their exact difference.  One income of 1000
and one expense of 300 give 1000, 300, count 2 and net 700. -/
theorem summarize_totals :
    (∀ rs : List Transaction,
      (summarize rs).transactionCount = rs.length ∧
      (summarize rs).totalIncome =
          sumAmounts (rs.filter (fun t => decide (t.type = "income"))) ∧
      (summarize rs).totalExpense =
          sumAmounts (rs.filter (fun t => decide (t.type = "expense"))) ∧
      (summarize rs).netBalance =
          JsNum.sub (summarize rs).totalIncome (summarize rs).totalExpense ∧
      (exactRange rs →
        (summarize rs).totalIncome =
            JsNum.ofInt (intTotal (rs.filter (fun t => decide (t.type = "income")))) ∧
        (summarize rs).totalExpense =
            JsNum.ofInt (intTotal (rs.filter (fun t => decide (t.type = "expense")))) ∧
        (summarize rs).netBalance =
            JsNum.ofInt (intTotal (rs.filter (fun t => decide (t.type = "income"))) -
              intTotal (rs.filter (fun t => decide (t.type = "expense")))))) ∧
    (exactRange [scenarioIncome, scenarioExpense] ∧
      (summarize [scenarioIncome, scenarioExpense]).totalIncome = JsNum.ofInt 1000 ∧
      (summarize [scenarioIncome, scenarioExpense]).totalExpense = JsNum.ofInt 300 ∧
      (summarize [scenarioIncome, scenarioExpense]).transactionCount = 2 ∧
      (summarize [scenarioIncome, scenarioExpense]).netBalance = JsNum.ofInt 700) := by
  have hall : ∀ rs : List Transaction,
      (summarize rs).transactionCount = rs.length ∧
      (summarize rs).totalIncome =
          sumAmounts (rs.filter (fun t => decide (t.type = "income"))) ∧
      (summarize rs).totalExpense =
          sumAmounts (rs.filter (fun t => decide (t.type = "expense"))) ∧
      (summarize rs).netBalance =
          JsNum.sub (summarize rs).totalIncome (summarize rs).totalExpense ∧
      (exactRange rs →
        (summarize rs).totalIncome =
            JsNum.ofInt (intTotal (rs.filter (fun t => decide (t.type = "income")))) ∧
        (summarize rs).totalExpense =
            JsNum.ofInt (intTotal (rs.filter (fun t => decide (t.type = "expense")))) ∧
        (summarize rs).netBalance =
            JsNum.ofInt (intTotal (rs.filter (fun t => decide (t.type = "income"))) -
              intTotal (rs.filter (fun t => decide (t.type = "expense"))))) := by
    intro rs
    refine ⟨rfl, rfl, rfl, rfl, ?_⟩
    intro hex
    obtain ⟨hI, hE, hN, _⟩ := summarize_exact rs hex
    exact ⟨hI, hE, hN⟩
  have hex : exactRange [scenarioIncome, scenarioExpense] := by decide!
  obtain ⟨hc, _, _, _, hexact⟩ := hall [scenarioIncome, scenarioExpense]
  obtain ⟨hI, hE, hN⟩ := hexact hex
  exact ⟨hall, hex, hI.trans (by decide!), hE.trans (by decide!), hc, hN.trans (by decide!)⟩

/-- C5 as stated fails.  A record of kind `income-a` and category `b`, as an
update can store it, puts the key of the pair (income, `a-b`) into
`categoryBreakdown` although no record has that kind and category.  And for
three income records of category salary with amounts `2 ^ 53`, 1 and 1 the
entry holds `2 ^ 53`, not the sum `2 ^ 53 + 2`. -/
theorem categoryBreakdown_counterexample :
    ((getProp (summarize [collidingDoc]).categoryBreakdown
          (breakdownKey "income" "a-b")).isSome = true ∧
      ¬ ∃ r ∈ [collidingDoc], r.type = "income" ∧ r.category = "a-b") ∧
    (getProp (summarize largeIncomes).categoryBreakdown (breakdownKey "income" "salary") =
        some ⟨JsNum.ofInt 9007199254740992, 3⟩ ∧
      withKindCategory "income" "salary" largeIncomes = largeIncomes ∧
      intTotal largeIncomes = 9007199254740994) := by
  decide!

/-- C5 amended: on records whose kind is income or expense, and for such a kind
and any category, `categoryBreakdown` has the key `"{kind}-{category}"` exactly
when some record has that kind and category; its entry then holds the amounts
of exactly those records added from 0 in sequence order in double precision,
and their number; that amount is their exact sum when every amount is an
integer and the absolute values add up to at most `2 ^ 53`; and two
kind/category pairs with the same key are equal. -/
theorem categoryBreakdown_spec (rs : List Transaction) (kind category : String)
    (hrs : ∀ r ∈ rs, r.type = "income" ∨ r.type = "expense")
    (hk : kind = "income" ∨ kind = "expense") :
    ((getProp (summarize rs).categoryBreakdown (breakdownKey kind category)).isSome = true ↔
        ∃ r ∈ rs, r.type = kind ∧ r.category = category) ∧
    ((∃ r ∈ rs, r.type = kind ∧ r.category = category) →
        getProp (summarize rs).categoryBreakdown (breakdownKey kind category) =
          some ⟨sumAmounts (withKindCategory kind category rs),
                (withKindCategory kind category rs).length⟩) ∧
    (exactRange rs →
        sumAmounts (withKindCategory kind category rs) =
          JsNum.ofInt (intTotal (withKindCategory kind category rs))) ∧
    (∀ kind2 category2 : String, kind2 = "income" ∨ kind2 = "expense" →
        breakdownKey kind category = breakdownKey kind2 category2 →
        kind = kind2 ∧ category = category2) := by
  have hread : getProp (summarize rs).categoryBreakdown (breakdownKey kind category) =
      if withKindCategory kind category rs = [] then none
      else some ⟨sumAmounts (withKindCategory kind category rs),
                 (withKindCategory kind category rs).length⟩ := by
    simp only [summarize]
    rw [getProp_foldl_categoryStep, categoryKey_filter rs kind category hrs hk]
    simp [getProp, sumAmounts]
  have hex : (∃ r ∈ rs, r.type = kind ∧ r.category = category) ↔
      withKindCategory kind category rs ≠ [] := by
    unfold withKindCategory
    rw [Ne, List.filter_eq_nil_iff]
    simp
  refine ⟨?_, ?_, ?_, ?_⟩
  · rw [hread, hex]
    by_cases h : withKindCategory kind category rs = [] <;> simp [h]
  · intro h
    rw [hread, if_neg (hex.mp h)]
  · intro hrange
    exact sumAmounts_exact _ (exactRange_filter rs _ hrange)
  · intro kind2 category2 hk2 h
    exact breakdownKey_inj _ _ _ _ hk hk2 h

/-- Witness for C5 amended on the two records of the summary scenario. -/
theorem categoryBreakdown_spec_witness :
    (∀ r ∈ [scenarioIncome, scenarioExpense], r.type = "income" ∨ r.type = "expense") ∧
    (∃ r ∈ [scenarioIncome, scenarioExpense], r.type = "expense" ∧ r.category = "food") ∧
    getProp (summarize [scenarioIncome, scenarioExpense]).categoryBreakdown
        (breakdownKey "expense" "food") =
      some ⟨sumAmounts (withKindCategory "expense" "food" [scenarioIncome, scenarioExpense]),
            (withKindCategory "expense" "food" [scenarioIncome, scenarioExpense]).length⟩ :=
  ⟨by decide!, by decide!,
   (categoryBreakdown_spec [scenarioIncome, scenarioExpense] "expense" "food"
      (by decide!) (Or.inr rfl)).2.1 (by decide!)⟩

/-- C6 as stated fails: for three office expenses of `2 ^ 53`, 1 and 1 the
`office` value is `2 ^ 53`, while the sum of the amounts is `2 ^ 53 + 2`. -/
theorem divisionBreakdown_counterexample :
    (∀ r ∈ largeExpenses, r.division = "office" ∨ r.division = "personal") ∧
    (summarize largeExpenses).divisionBreakdown =
        [("office", JsNum.ofInt 9007199254740992), ("personal", JsNum.zero)] ∧
    expensesOf "office" largeExpenses = largeExpenses ∧
    intTotal largeExpenses = 9007199254740994 := by
  decide!

/-- C6 amended: on records whose division is office or personal,
`divisionBreakdown` has exactly the keys `office` and `personal`, each holding
the amounts of the expense records of that division added from 0 in sequence
order in double precision; income records contribute nothing, and a division
without expense record holds 0.  When every amount is an integer and the
absolute values add up to at most `2 ^ 53`, each value is the exact sum over
the expense records of its division. -/
theorem divisionBreakdown_spec (rs : List Transaction)
    (h : ∀ r ∈ rs, r.division = "office" ∨ r.division = "personal") :
    (summarize rs).divisionBreakdown =
        [("office", sumAmounts (expensesOf "office" rs)),
         ("personal", sumAmounts (expensesOf "personal" rs))] ∧
    keys (summarize rs).divisionBreakdown = ["office", "personal"] ∧
    (summarize rs).divisionBreakdown =
        (summarize (rs.filter (fun t => decide (t.type = "expense")))).divisionBreakdown ∧
    (∀ d : String, d = "office" ∨ d = "personal" →
        (∀ r ∈ rs, r.type = "expense" → r.division ≠ d) →
        getProp (summarize rs).divisionBreakdown d = some JsNum.zero) ∧
    (exactRange rs →
        (summarize rs).divisionBreakdown =
          [("office", JsNum.ofInt (intTotal (expensesOf "office" rs))),
           ("personal", JsNum.ofInt (intTotal (expensesOf "personal" rs)))]) := by
  have hval : (summarize rs).divisionBreakdown =
      [("office", sumAmounts (expensesOf "office" rs)),
       ("personal", sumAmounts (expensesOf "personal" rs))] := by
    simp only [summarize]
    rw [foldl_divisionStep_two _ _ _ (fun t ht => h t (List.mem_filter.mp ht).1)]
    simp [expensesOf_eq, sumAmounts]
  refine ⟨hval, ?_, ?_, ?_, ?_⟩
  · rw [hval]; rfl
  · simp [summarize, List.filter_filter]
  · intro d hd hnone
    have hempty : expensesOf d rs = [] := by
      unfold expensesOf
      rw [List.filter_eq_nil_iff]
      intro r hr
      have := hnone r hr
      simp only [decide_eq_true_eq, not_and]
      exact this
    rw [hval]
    rcases hd with hd | hd <;> subst hd <;>
      simp [getProp, hempty, sumAmounts, addAmounts]
  · intro hrange
    have ho : sumAmounts (expensesOf "office" rs) =
        JsNum.ofInt (intTotal (expensesOf "office" rs)) :=
      sumAmounts_exact _ (exactRange_filter rs _ hrange)
    have hp : sumAmounts (expensesOf "personal" rs) =
        JsNum.ofInt (intTotal (expensesOf "personal" rs)) :=
      sumAmounts_exact _ (exactRange_filter rs _ hrange)
    rw [hval, ho, hp]

/-- Witness for C6 amended on the two records of the summary scenario. -/
theorem divisionBreakdown_spec_witness :
    (∀ r ∈ [scenarioIncome, scenarioExpense],
        r.division = "office" ∨ r.division = "personal") ∧
    (summarize [scenarioIncome, scenarioExpense]).divisionBreakdown =
        [("office", sumAmounts (expensesOf "office" [scenarioIncome, scenarioExpense])),
         ("personal", sumAmounts (expensesOf "personal" [scenarioIncome, scenarioExpense]))] :=
  ⟨by decide!,
   (divisionBreakdown_spec [scenarioIncome, scenarioExpense] (by decide!)).1⟩

/-- C7 as stated fails: with one income of 0.1 in `A` and incomes of 0.2 and
0.3 in `B`, the summary of `A` followed by `B` has `totalIncome`
0.6000000000000001, while the totals of `A` and of `B` add up to 0.6. -/
theorem summarize_append_counterexample :
    (summarize (fractionA ++ fractionB)).totalIncome =
        JsNum.num (Amount.dyadic 5404319552844596 1021) ∧
    JsNum.add (summarize fractionA).totalIncome (summarize fractionB).totalIncome =
        JsNum.num (Amount.dyadic 5404319552844595 1021) ∧
    (summarize (fractionA ++ fractionB)).totalIncome ≠
        JsNum.add (summarize fractionA).totalIncome (summarize fractionB).totalIncome := by
  decide!

/-- C7 amended: for every two record sequences `A` and `B`, the summary of `A`
followed by `B` has `transactionCount` equal to the sum of the two counts, and
every key of `categoryBreakdown` is present exactly when it is present on one
side, with a count that is the sum of the two counts (an absent side counting
as 0).  When every amount of `A` and `B` is an integer and the absolute values
add up to at most `2 ^ 53`, aggregation is additive: `totalIncome`,
`totalExpense` and `netBalance` are the sums of those of `A` and `B`, every
key of `categoryBreakdown` reads the key-wise sum of the two entries, and the
`office` and `personal` values of `divisionBreakdown` add. -/
theorem summarize_append (A B : List Transaction) :
    (summarize (A ++ B)).transactionCount =
        (summarize A).transactionCount + (summarize B).transactionCount ∧
    (∀ k : String,
        (getProp (summarize (A ++ B)).categoryBreakdown k).isSome =
          ((getProp (summarize A).categoryBreakdown k).isSome ||
            (getProp (summarize B).categoryBreakdown k).isSome)) ∧
    (∀ k : String,
        entryCount (summarize (A ++ B)).categoryBreakdown k =
          entryCount (summarize A).categoryBreakdown k +
            entryCount (summarize B).categoryBreakdown k) ∧
    (exactRange (A ++ B) →
      (summarize (A ++ B)).totalIncome =
          JsNum.add (summarize A).totalIncome (summarize B).totalIncome ∧
      (summarize (A ++ B)).totalExpense =
          JsNum.add (summarize A).totalExpense (summarize B).totalExpense ∧
      (summarize (A ++ B)).netBalance =
          JsNum.add (summarize A).netBalance (summarize B).netBalance ∧
      (∀ k : String,
          getProp (summarize (A ++ B)).categoryBreakdown k =
            mergeEntry (getProp (summarize A).categoryBreakdown k)
              (getProp (summarize B).categoryBreakdown k)) ∧
      (∀ d : String, d = "office" ∨ d = "personal" →
          ∃ a b : JsNum,
            getProp (summarize A).divisionBreakdown d = some a ∧
            getProp (summarize B).divisionBreakdown d = some b ∧
            getProp (summarize (A ++ B)).divisionBreakdown d = some (JsNum.add a b))) := by
  have hcb : ∀ (rs : List Transaction) (k : String),
      getProp (summarize rs).categoryBreakdown k =
        if rs.filter (fun t => decide (categoryKey t = k)) = [] then none
        else some ⟨sumAmounts (rs.filter (fun t => decide (categoryKey t = k))),
                   (rs.filter (fun t => decide (categoryKey t = k))).length⟩ := by
    intro rs k
    simp only [summarize]
    rw [getProp_foldl_categoryStep]
    simp [getProp, sumAmounts]
  refine ⟨by simp [summarize], ?_, ?_, ?_⟩
  · intro k
    rw [hcb, hcb, hcb, List.filter_append]
    by_cases hA : A.filter (fun t => decide (categoryKey t = k)) = [] <;>
      by_cases hB : B.filter (fun t => decide (categoryKey t = k)) = [] <;>
      simp [hA, hB]
  · intro k
    simp only [entryCount]
    rw [hcb, hcb, hcb, List.filter_append]
    by_cases hA : A.filter (fun t => decide (categoryKey t = k)) = [] <;>
      by_cases hB : B.filter (fun t => decide (categoryKey t = k)) = [] <;>
      simp [hA, hB]
  · intro hex
    obtain ⟨hexA, hexB⟩ := exactRange_append A B hex
    have hfilter : ∀ p : Transaction → Bool,
        sumAmounts ((A ++ B).filter p) =
          JsNum.add (sumAmounts (A.filter p)) (sumAmounts (B.filter p)) := by
      intro p
      have hp := exactRange_filter (A ++ B) p hex
      rw [List.filter_append] at hp ⊢
      exact sumAmounts_append_exact _ _ hp
    refine ⟨hfilter _, hfilter _, ?_, ?_, ?_⟩
    · obtain ⟨_, _, hN, hb⟩ := summarize_exact (A ++ B) hex
      obtain ⟨_, _, hNA, hbA⟩ := summarize_exact A hexA
      obtain ⟨_, _, hNB, hbB⟩ := summarize_exact B hexB
      have h3 := hex.2
      rw [absTotal_append] at h3
      rw [hN, hNA, hNB, add_ofInt]
      · congr 1
        simp only [List.filter_append, intTotal_append]
        ring
      · have h4 := Int.natAbs_add_le
          (intTotal (A.filter (fun t => decide (t.type = "income"))) -
            intTotal (A.filter (fun t => decide (t.type = "expense"))))
          (intTotal (B.filter (fun t => decide (t.type = "income"))) -
            intTotal (B.filter (fun t => decide (t.type = "expense"))))
        have h5 := Int.natAbs_sub_le
          (intTotal (A.filter (fun t => decide (t.type = "income"))))
          (intTotal (A.filter (fun t => decide (t.type = "expense"))))
        have h6 := Int.natAbs_sub_le
          (intTotal (B.filter (fun t => decide (t.type = "income"))))
          (intTotal (B.filter (fun t => decide (t.type = "expense"))))
        omega
    · intro k
      rw [hcb, hcb, hcb]
      have hsum := hfilter (fun t => decide (categoryKey t = k))
      rw [List.filter_append] at hsum ⊢
      by_cases hA : A.filter (fun t => decide (categoryKey t = k)) = [] <;>
        by_cases hB : B.filter (fun t => decide (categoryKey t = k)) = [] <;>
        simp [hA, hB, mergeEntry]
      exact hsum
    · intro d hd
      have h0 : getProp [("office", JsNum.zero), ("personal", JsNum.zero)] d =
          some JsNum.zero := by
        rcases hd with hd | hd <;> subst hd <;> simp [getProp]
      have hdb : ∀ rs : List Transaction,
          getProp (summarize rs).divisionBreakdown d =
            some (sumAmounts ((rs.filter (fun t => decide (t.type = "expense"))).filter
              (fun t => decide (t.division = d)))) := by
        intro rs
        simp only [summarize]
        rw [getProp_foldl_divisionStep _ _ _ _ h0]
        rfl
      refine ⟨_, _, hdb A, hdb B, ?_⟩
      rw [hdb]
      congr 1
      have hp := exactRange_filter _ (fun t => decide (t.division = d))
        (exactRange_filter (A ++ B) (fun t => decide (t.type = "expense")) hex)
      rw [List.filter_append, List.filter_append] at hp ⊢
      exact sumAmounts_append_exact _ _ hp

/-- Witness for C7 amended: the two records of the summary scenario, one on
each side. -/
theorem summarize_append_witness :
    exactRange ([scenarioIncome] ++ [scenarioExpense]) ∧
    (summarize ([scenarioIncome] ++ [scenarioExpense])).netBalance =
      JsNum.add (summarize [scenarioIncome]).netBalance
        (summarize [scenarioExpense]).netBalance :=
  ⟨by decide!,
   ((summarize_append [scenarioIncome] [scenarioExpense]).2.2.2 (by decide!)).2.2.1⟩

/-! ## Filter engine: the claims -/

theorem applyPeriod_division (lib : DateLib) (now : Int) (period : Option String)
    (filter : Filter) :
    (applyPeriod lib now period filter).division = filter.division ∧
    (applyPeriod lib now period filter).category = filter.category := by
  unfold applyPeriod
  cases period with
  | none => exact ⟨rfl, rfl⟩
  | some p =>
    by_cases hp : p = ""
    · simp [hp]
    · by_cases hd : ((periodFilter lib now p).gte.isSome || (periodFilter lib now p).lte.isSome)
          = true
      · simp [hp, hd]
      · simp [hp, hd]

theorem applyRange_division (lib : DateLib) (startDate endDate : Option String)
    (filter : Filter) :
    (applyRange lib startDate endDate filter).division = filter.division ∧
    (applyRange lib startDate endDate filter).category = filter.category := by
  unfold applyRange
  split
  · split <;> exact ⟨rfl, rfl⟩
  · exact ⟨rfl, rfl⟩

theorem applyFilters_division (division category : Option String) :
    (applyFilters division category
        { division := none, category := none, timestamp := none }).division =
      if truthy division = true ∧ division ≠ some "all" then division else none := by
  unfold applyFilters
  simp only [Bool.and_eq_true, decide_eq_true_eq]
  split_ifs <;> rfl

theorem applyFilters_category (division category : Option String) :
    (applyFilters division category
        { division := none, category := none, timestamp := none }).category =
      if truthy category = true ∧ category ≠ some "all" then category else none := by
  unfold applyFilters
  simp only [Bool.and_eq_true, decide_eq_true_eq]
  split_ifs <;> rfl

/-- The match of a string constraint built from a query value. -/
theorem matchesString_built (param : Option String) (value : String) :
    matchesString (if truthy param = true ∧ param ≠ some "all" then param else none) value
        = true ↔
      param = none ∨ param = some "" ∨ param = some "all" ∨ param = some value := by
  cases param with
  | none => simp [truthy, matchesString]
  | some v =>
    by_cases h1 : v = ""
    · subst h1; simp [truthy, matchesString]
    · by_cases h2 : v = "all"
      · subst h2; simp [truthy, matchesString]
      · simp [truthy, matchesString, h1, h2, eq_comm]

/-- C8 as stated fails: with `startDate` sent empty, `endDate` and
`period=weekly` sent, the range is not applied and the filter keeps the lower
bound of the period, so it differs from the filter of the same query without
period. -/
theorem listFilter_range_counterexample :
    emptyStartQuery.startDate.isSome = true ∧ emptyStartQuery.endDate.isSome = true ∧
    (listFilter epochDateLib 1000000000 emptyStartQuery).timestamp =
        some { gte := some (some 395200000), lte := none } ∧
    listFilter epochDateLib 1000000000 emptyStartQuery ≠
        listFilter epochDateLib 1000000000 { emptyStartQuery with period := none } := by
  refine ⟨rfl, rfl, ?_, ?_⟩
  · simp [listFilter, applyRange, applyPeriod, periodFilter, emptyStartQuery]
  · simp [listFilter, applyRange, applyPeriod, periodFilter, emptyStartQuery, applyFilters,
      truthy]

/-- C8 amended: when `startDate` and `endDate` are both sent and non-empty, then
for every value of `period` the temporal constraint of the list filter is the
pair of bounds parsed from them, the filter equals the one built from the same
query without period, and for valid dates it accepts exactly the timestamps
with `startDate <= timestamp <= endDate`. -/
theorem listFilter_range (lib : DateLib) (now : Int) (q : Query) (sd ed : String)
    (hs : q.startDate = some sd) (he : q.endDate = some ed)
    (hsd : sd ≠ "") (hed : ed ≠ "") :
    (listFilter lib now q).timestamp =
        some { gte := some (lib.parse sd), lte := some (lib.parse ed) } ∧
    listFilter lib now q = listFilter lib now { q with period := none } ∧
    (∀ a b ts : Int, lib.parse sd = some a → lib.parse ed = some b →
        (matchesTimestamp (listFilter lib now q).timestamp ts = true ↔ a ≤ ts ∧ ts ≤ b)) := by
  have hts : (listFilter lib now q).timestamp =
      some { gte := some (lib.parse sd), lte := some (lib.parse ed) } := by
    simp [listFilter, applyRange, hs, he, hsd, hed]
  refine ⟨hts, ?_, ?_⟩
  · have hd := (applyPeriod_division lib now q.period
        (applyFilters q.division q.category
          { division := none, category := none, timestamp := none }))
    have hnone : ∀ f : Filter, applyPeriod lib now none f = f := fun _ => rfl
    simp only [listFilter, applyRange, hs, he]
    simp [hsd, hed, hd.1, hd.2, hnone]
  · intro a b ts ha hb
    rw [hts]
    simp [matchesTimestamp, matchesGte, matchesLte, ha, hb]

/-- Witness for C8 amended: an explicit range together with `period=monthly`. -/
theorem listFilter_range_witness :
    rangeQuery.startDate = some "1970-01-01T00:00:00.000Z" ∧
    rangeQuery.endDate = some "1970-01-02T00:00:00.000Z" ∧
    (listFilter epochDateLib 1000000000 rangeQuery).timestamp =
        some { gte := some (epochDateLib.parse "1970-01-01T00:00:00.000Z"),
               lte := some (epochDateLib.parse "1970-01-02T00:00:00.000Z") } :=
  ⟨rfl, rfl,
   (listFilter_range epochDateLib 1000000000 rangeQuery
      "1970-01-01T00:00:00.000Z" "1970-01-02T00:00:00.000Z" rfl rfl
      (by decide) (by decide)).1⟩

/-- C9 as stated fails: a `division` sent as the empty string puts no constraint
on the division, so a record of division `personal` is accepted although the
value is neither absent, nor `all`, nor equal to the record's division. -/
theorem filter_division_counterexample :
    emptyDivisionQuery.division = some "" ∧
    scenarioIncome.division = "personal" ∧
    matchesString (summaryFilter emptyDivisionQuery).division scenarioIncome.division = true ∧
    matchesString (listFilter epochDateLib 0 emptyDivisionQuery).division
        scenarioIncome.division = true ∧
    ¬ (emptyDivisionQuery.division = none ∨ emptyDivisionQuery.division = some "all" ∨
        emptyDivisionQuery.division = some scenarioIncome.division) := by
  refine ⟨rfl, rfl, ?_, ?_, ?_⟩
  · simp [summaryFilter, applyFilters, emptyDivisionQuery, truthy, matchesString]
  · simp [listFilter, applyRange, applyPeriod, applyFilters, emptyDivisionQuery, truthy,
      matchesString]
  · simp [emptyDivisionQuery, scenarioIncome]

/-- C9 amended: in the list filter and in the summary filter, the division part
accepts a record exactly when the `division` parameter is absent, empty, `all`,
or equal to the record's division; the same holds for `category`; both filters
carry the same two constraints, and a filter accepts a record exactly when all
its parts do. -/
theorem filter_division_category (lib : DateLib) (now : Int) (q : Query) (t : Transaction) :
    (matchesString (listFilter lib now q).division t.division = true ↔
        q.division = none ∨ q.division = some "" ∨ q.division = some "all" ∨
          q.division = some t.division) ∧
    (matchesString (listFilter lib now q).category t.category = true ↔
        q.category = none ∨ q.category = some "" ∨ q.category = some "all" ∨
          q.category = some t.category) ∧
    (summaryFilter q).division = (listFilter lib now q).division ∧
    (summaryFilter q).category = (listFilter lib now q).category ∧
    (matchesFilter (summaryFilter q) t = true ↔
        matchesString (summaryFilter q).division t.division = true ∧
        matchesString (summaryFilter q).category t.category = true) ∧
    (matchesFilter (listFilter lib now q) t = true ↔
        matchesString (listFilter lib now q).division t.division = true ∧
        matchesString (listFilter lib now q).category t.category = true ∧
        matchesTimestamp (listFilter lib now q).timestamp t.timestamp = true) := by
  have hd : (listFilter lib now q).division =
      if truthy q.division = true ∧ q.division ≠ some "all" then q.division else none := by
    simp only [listFilter]
    rw [(applyRange_division _ _ _ _).1, (applyPeriod_division _ _ _ _).1,
      applyFilters_division]
  have hc : (listFilter lib now q).category =
      if truthy q.category = true ∧ q.category ≠ some "all" then q.category else none := by
    simp only [listFilter]
    rw [(applyRange_division _ _ _ _).2, (applyPeriod_division _ _ _ _).2,
      applyFilters_category]
  have hsd : (summaryFilter q).division = (listFilter lib now q).division := by
    rw [hd]; exact applyFilters_division _ _
  have hsc : (summaryFilter q).category = (listFilter lib now q).category := by
    rw [hc]; exact applyFilters_category _ _
  have hst : (summaryFilter q).timestamp = none := by
    simp only [summaryFilter, applyFilters]
    split_ifs <;> rfl
  refine ⟨?_, ?_, hsd, hsc, ?_, ?_⟩
  · rw [hd]; exact matchesString_built _ _
  · rw [hc]; exact matchesString_built _ _
  · simp [matchesFilter, hst, matchesTimestamp]
  · simp [matchesFilter, and_assoc]

/-! ## Lemmas on the collection -/

theorem findById_some (docs : List Transaction) (id : ObjectId) (t : Transaction)
    (h : findById docs id = some t) : t ∈ docs ∧ t._id = id := by
  unfold findById at h
  have h1 := List.mem_of_find?_eq_some h
  have h2 := List.find?_some h
  exact ⟨h1, by simpa using h2⟩

theorem findById_none (docs : List Transaction) (id : ObjectId)
    (h : findById docs id = none) : ∀ t ∈ docs, t._id ≠ id := by
  unfold findById at h
  rw [List.find?_eq_none] at h
  intro t ht
  simpa using h t ht

theorem mem_findByIdAndUpdate (docs : List Transaction) (id : ObjectId)
    (f : Transaction → Transaction) (u : Transaction)
    (h : u ∈ findByIdAndUpdate docs id f) :
    u ∈ docs ∨ ∃ t ∈ docs, t._id = id ∧ u = f t := by
  induction docs with
  | nil => simp [findByIdAndUpdate] at h
  | cons d rest ih =>
    unfold findByIdAndUpdate at h
    by_cases hd : d._id = id
    · rw [if_pos hd] at h
      rcases List.mem_cons.mp h with h | h
      · exact Or.inr ⟨d, List.mem_cons_self _ _, hd, h⟩
      · exact Or.inl (List.mem_cons_of_mem _ h)
    · rw [if_neg hd] at h
      rcases List.mem_cons.mp h with h | h
      · exact Or.inl (h ▸ List.mem_cons_self _ _)
      · rcases ih h with h | ⟨t, ht, hid, hu⟩
        · exact Or.inl (List.mem_cons_of_mem _ h)
        · exact Or.inr ⟨t, List.mem_cons_of_mem _ ht, hid, hu⟩

theorem map_id_findByIdAndUpdate (docs : List Transaction) (id : ObjectId)
    (f : Transaction → Transaction) (hf : ∀ t, (f t)._id = t._id) :
    (findByIdAndUpdate docs id f).map (fun t => t._id) = docs.map (fun t => t._id) := by
  induction docs with
  | nil => rfl
  | cons d rest ih =>
    unfold findByIdAndUpdate
    by_cases hd : d._id = id
    · simp [hd, hf]
    · simp [hd, ih]

theorem findById_findByIdAndUpdate (docs : List Transaction) (id : ObjectId)
    (f : Transaction → Transaction) (hf : ∀ t, (f t)._id = t._id) :
    findById (findByIdAndUpdate docs id f) id = (findById docs id).map f := by
  induction docs with
  | nil => rfl
  | cons d rest ih =>
    unfold findByIdAndUpdate
    by_cases hd : d._id = id
    · simp [findById, hd, hf]
    · have ih2 := ih
      simp only [findById] at ih2
      simp [findById, hd, ih2]

theorem findByIdAndDelete_sublist (docs : List Transaction) (id : ObjectId) :
    (findByIdAndDelete docs id).Sublist docs := by
  induction docs with
  | nil => exact List.Sublist.refl _
  | cons d rest ih =>
    unfold findByIdAndDelete
    by_cases hd : d._id = id
    · rw [if_pos hd]; exact List.sublist_cons_self _ _
    · rw [if_neg hd]; exact ih.cons₂ _

theorem eq_of_same_id (docs : List Transaction) (h : (docs.map (fun t => t._id)).Nodup)
    (a b : Transaction) (ha : a ∈ docs) (hb : b ∈ docs) (hab : a._id = b._id) : a = b :=
  List.inj_on_of_nodup_map h ha hb hab

/-- The write of a `PUT` keeps every stored document or replaces a document of
the identifier by its patched image. -/
theorem mem_putWrite (s : Server) (id : ObjectId) (body : Body) (u : Transaction)
    (h : u ∈ (putWrite s id body).1.docs) :
    u ∈ s.docs ∨ ∃ t ∈ s.docs, t._id = id ∧ u = applyPatch body t := by
  unfold putWrite at h
  cases hf : findById s.docs id with
  | none => rw [hf] at h; exact Or.inl h
  | some t =>
    rw [hf] at h
    simp only at h
    split_ifs at h
    · exact Or.inl h
    · exact mem_findByIdAndUpdate _ _ _ _ h

theorem map_id_putWrite (s : Server) (id : ObjectId) (body : Body) :
    (putWrite s id body).1.docs.map (fun t => t._id) = s.docs.map (fun t => t._id) := by
  unfold putWrite
  cases hf : findById s.docs id with
  | none => rfl
  | some t =>
    simp only
    split_ifs
    · rfl
    · exact map_id_findByIdAndUpdate s.docs id (applyPatch body) (fun _ => rfl)

/-- Identifiers are unique in every reachable state. -/
theorem reachable_nodup (s : Server) (h : Reachable s) :
    (s.docs.map (fun t => t._id)).Nodup := by
  induction h with
  | init => simp [Server.init]
  | step now a s _ ih =>
    cases a with
    | create newId body =>
      simp only [step, postSave]
      cases hc : construct newId now body with
      | none => exact ih
      | some t =>
        cases hf : findById s.docs t._id with
        | some u => simpa [hf] using ih
        | none =>
          have hne := findById_none _ _ hf
          simp only [hf, Option.isSome_none, Bool.false_eq_true, if_false, List.map_append,
            List.map_cons, List.map_nil]
          rw [List.nodup_append]
          refine ⟨ih, List.nodup_singleton _, ?_⟩
          intro x hx hx2
          rw [List.mem_singleton] at hx2
          obtain ⟨u, hu, hux⟩ := List.mem_map.mp hx
          exact hne u hu (hux.trans hx2)
    | createResume t =>
      simp only [step, postResume]
      split_ifs <;> exact ih
    | update id body =>
      simp only [step]
      cases putGate s id <;> exact ih
    | updateWrite id body =>
      simp only [step]
      split_ifs
      · rw [map_id_putWrite]; exact ih
      · exact ih
    | delete id =>
      simp only [step]
      cases deleteGate s id <;> exact ih
    | deleteWrite id =>
      simp only [step, deleteWrite]
      split_ifs
      · exact ih.sublist ((findByIdAndDelete_sublist _ _).map _)
      · exact ih
    | lockTimer id =>
      simp only [step, lockTimeout]
      split_ifs
      · simp only
        rw [map_id_findByIdAndUpdate s.docs id (fun t => { t with canEdit := false })
          (fun _ => rfl)]
        exact ih
      · exact ih

/-- The gate of a `PUT` on a stored record passes exactly when the flag it
reads is true. -/
theorem putGate_of_found (s : Server) (id : ObjectId) (r : Transaction)
    (h : findById s.docs id = some r) :
    putGate s id =
      if r.canEdit = true then none
      else some (Response.error 403 "Transaction cannot be edited after 12 hours") := by
  unfold putGate
  cases hc : r.canEdit <;> simp [h, hc]

theorem deleteGate_of_found (s : Server) (id : ObjectId) (r : Transaction)
    (h : findById s.docs id = some r) :
    deleteGate s id =
      if r.canEdit = true then none
      else some (Response.error 403 "Transaction cannot be deleted after 12 hours") := by
  unfold deleteGate
  cases hc : r.canEdit <;> simp [h, hc]

/-! ## Mutations and the edit lock: the claims -/

/-- C1 as stated fails: a record posted with a `timestamp` more than 12 hours
in the past keeps `canEdit = true`; at that same instant its timer is not due,
`PUT` answers 200 and changes the stored record, and `DELETE` answers 200 and
removes it. -/
theorem gate_elapsed_counterexample :
    Reachable backdatedServer ∧
    findById backdatedServer.docs 1 = some backdatedDoc ∧
    backdatedDoc.canEdit = true ∧
    50000000 - backdatedDoc.timestamp ≥ lockDelay ∧
    (putTransaction backdatedServer 1 amountPatch).2 =
        Response.doc 200 { backdatedDoc with amount := Amount.ofInt 1 } ∧
    (putTransaction backdatedServer 1 amountPatch).1.docs =
        [{ backdatedDoc with amount := Amount.ofInt 1 }] ∧
    (step 50000000 (step 50000000 backdatedServer (Action.update 1 amountPatch))
        (Action.updateWrite 1 amountPatch)).docs =
        [{ backdatedDoc with amount := Amount.ofInt 1 }] ∧
    (deleteTransaction backdatedServer 1).2.status = 200 ∧
    (deleteTransaction backdatedServer 1).1.docs = [] ∧
    (step 50000000 (step 50000000 backdatedServer (Action.delete 1))
        (Action.deleteWrite 1)).docs = [] :=
  ⟨Reachable.step _ _ _ (Reachable.step _ _ _ Reachable.init), by decide!, rfl, by decide!,
   by decide!, by decide!, by decide!, by decide!, by decide!, by decide!⟩

/-- C1 amended: for every stored record, `PUT` and `DELETE` answer 403 exactly
when the stored `canEdit` flag is false, whatever the request time and the
record's timestamp; in that case the state is left unchanged; and the flag is
false once a due lock timer of the record has run. -/
theorem gate_reads_flag (s : Server) (id : ObjectId) (r : Transaction) (body : Body)
    (h : findById s.docs id = some r) :
    ((putTransaction s id body).2.status = 403 ↔ r.canEdit = false) ∧
    ((deleteTransaction s id).2.status = 403 ↔ r.canEdit = false) ∧
    (r.canEdit = false → ∀ now : Int,
        step now s (Action.update id body) = s ∧ step now s (Action.delete id) = s) ∧
    (∀ now : Int,
        s.timers.any (fun p => decide (p.1 = id) && decide (p.2 ≤ now)) = true →
        findById (step now s (Action.lockTimer id)).docs id =
          some { r with canEdit := false }) := by
  have hg := putGate_of_found s id r h
  have hd := deleteGate_of_found s id r h
  refine ⟨?_, ?_, ?_, ?_⟩
  · unfold putTransaction
    cases hc : r.canEdit
    · simp [hg, hc, Response.status]
    · by_cases hid : body._id.isSome = true ∧ body._id ≠ some id
      · simp [hg, hc, putWrite, h, hid, Response.status]
      · simp only [hg, hc, if_true, putWrite, h, hid, if_false]
        simp [Response.status]
  · unfold deleteTransaction
    cases hc : r.canEdit <;> simp [hd, hc, deleteWrite, Response.status]
  · intro hc now
    simp [step, hg, hd, hc]
  · intro now hdue
    simp only [step, lockTimeout, hdue, if_true]
    rw [findById_findByIdAndUpdate s.docs id (fun t => { t with canEdit := false })
      (fun _ => rfl), h]
    rfl

/-- Witness for C1 amended: the record stored with `canEdit` false. -/
theorem gate_reads_flag_witness :
    findById lockedServer.docs 1 = some lockedDoc ∧
    ((putTransaction lockedServer 1 amountPatch).2.status = 403 ↔ lockedDoc.canEdit = false) :=
  ⟨by decide!,
   (gate_reads_flag lockedServer 1 lockedDoc amountPatch (by decide!)).1⟩

/-- C2 as stated fails: a patch that carries `timestamp` overwrites the stored
timestamp of an editable record. -/
theorem put_timestamp_counterexample :
    findById backdatedServer.docs 1 = some backdatedDoc ∧
    backdatedDoc.canEdit = true ∧
    (putTransaction backdatedServer 1 timestampPatch).2 =
        Response.doc 200 { backdatedDoc with timestamp := 5 } ∧
    findById (putTransaction backdatedServer 1 timestampPatch).1.docs 1 =
        some { backdatedDoc with timestamp := 5 } ∧
    ({ backdatedDoc with timestamp := 5 } : Transaction).timestamp ≠ backdatedDoc.timestamp := by
  decide!

/-- C2 amended: for every existing editable record and every patch, the record
stored under the identifier after `PUT`, and the record returned on success,
have the identifier the record had before; the timestamp is the one the patch
carries when the update is applied and the patch has one, and is unchanged when
the patch carries no timestamp.  A patch whose `_id` differs from the record's is
refused with 400 and changes nothing. -/
theorem put_preserves_id (s : Server) (id : ObjectId) (r : Transaction) (body : Body)
    (h : findById s.docs id = some r) (he : r.canEdit = true) :
    (∃ t : Transaction,
        findById (putTransaction s id body).1.docs id = some t ∧
        t._id = r._id ∧
        (body.timestamp = none → t.timestamp = r.timestamp)) ∧
    (∀ t : Transaction, (putTransaction s id body).2 = Response.doc 200 t →
        t._id = r._id ∧ t.timestamp = body.timestamp.getD r.timestamp ∧
        findById (putTransaction s id body).1.docs id = some t) ∧
    ((body._id = none ∨ body._id = some id) →
        (putTransaction s id body).2 = Response.doc 200 (applyPatch body r)) ∧
    (¬ (body._id = none ∨ body._id = some id) →
        (putTransaction s id body).2.status = 400 ∧ (putTransaction s id body).1 = s) := by
  have hfind : findById (findByIdAndUpdate s.docs id (applyPatch body)) id =
      some (applyPatch body r) := by
    rw [findById_findByIdAndUpdate s.docs id (applyPatch body) (fun _ => rfl), h]; rfl
  have hgate : putGate s id = none := by
    rw [putGate_of_found s id r h, if_pos he]
  by_cases hid : body._id.isSome = true ∧ body._id ≠ some id
  · have hput : putTransaction s id body =
        (s, Response.error 400 "would modify the immutable field _id") := by
      simp [putTransaction, hgate, putWrite, h, hid]
    have hno : ¬ (body._id = none ∨ body._id = some id) := by
      rintro (h1 | h1)
      · rw [h1] at hid; simp at hid
      · exact hid.2 h1
    refine ⟨⟨r, by rw [hput]; exact h, rfl, fun _ => rfl⟩, ?_, ?_, ?_⟩
    · intro t ht
      rw [hput] at ht
      cases ht
    · intro h1; exact absurd h1 hno
    · intro _; rw [hput]; exact ⟨rfl, rfl⟩
  · have hput : putTransaction s id body =
        ({ s with docs := findByIdAndUpdate s.docs id (applyPatch body) },
          Response.doc 200 (applyPatch body r)) := by
      simp only [putTransaction, hgate, putWrite, h, hid, if_false]
    have hyes : body._id = none ∨ body._id = some id := by
      cases hb : body._id with
      | none => exact Or.inl rfl
      | some j =>
        right
        by_contra hne
        exact hid ⟨by simp [hb], by rw [hb]; exact hne⟩
    refine ⟨⟨applyPatch body r, by rw [hput]; exact hfind, rfl, ?_⟩, ?_, ?_, ?_⟩
    · intro hts; simp [applyPatch, hts]
    · intro t ht
      rw [hput] at ht
      simp only [Response.doc.injEq, true_and] at ht
      subst ht
      exact ⟨rfl, rfl, by rw [hput]; exact hfind⟩
    · intro _; rw [hput]
    · intro hno; exact absurd hyes hno

/-- Witness for C2 amended: a patch of `amount` on an editable record. -/
theorem put_preserves_id_witness :
    findById backdatedServer.docs 1 = some backdatedDoc ∧
    backdatedDoc.canEdit = true ∧
    (∃ t : Transaction,
        findById (putTransaction backdatedServer 1 amountPatch).1.docs 1 = some t ∧
        t._id = backdatedDoc._id ∧
        (amountPatch.timestamp = none → t.timestamp = backdatedDoc.timestamp)) :=
  ⟨by decide!, rfl,
   (put_preserves_id backdatedServer 1 backdatedDoc amountPatch (by decide!) rfl).1⟩

/-- C3 as stated fails.  A `PUT` carrying `canEdit: true` passes its gate while
the flag is true and is suspended before its write; the record's lock timer
then runs and stores the flag false; the write of the `PUT`, which tests
nothing, then stores the flag true again. -/
theorem canEdit_monotonic_counterexample :
    Reachable raceServer ∧
    raceServer.docs = [{ backdatedDoc with canEdit := false }] ∧
    raceServer.inflight = [Pending.put 1 unlockPatch] ∧
    (step 43200001 raceServer (Action.updateWrite 1 unlockPatch)).docs = [backdatedDoc] ∧
    ({ backdatedDoc with canEdit := false } : Transaction)._id = backdatedDoc._id ∧
    ({ backdatedDoc with canEdit := false } : Transaction).canEdit = false ∧
    backdatedDoc.canEdit = true :=
  ⟨Reachable.step _ _ _ (Reachable.step _ _ _ (Reachable.step _ _ _
     (Reachable.step _ _ _ Reachable.init))),
   by decide!, by decide!, by decide!, rfl, rfl, rfl⟩

/-- C3 amended: in every reachable state, a record whose flag is false before
an event and that still exists after it has its flag false after it, for every
event (create, the gate and the write of an update or of a delete, the lock
timer) other than the write of a suspended update of that record whose patch
carries `canEdit: true`; and the flag stays false over every `PUT` and every
`DELETE` that runs its gate and its write with no event in between. -/
theorem canEdit_monotonic (s : Server) (hs : Reachable s) (r : Transaction)
    (hr : r ∈ s.docs) (hflag : r.canEdit = false) :
    (∀ (now : Int) (a : Action),
        (∀ body : Body, a = Action.updateWrite r._id body → body.canEdit ≠ some true) →
        ∀ u ∈ (step now s a).docs, u._id = r._id → u.canEdit = false) ∧
    (∀ (id : ObjectId) (body : Body),
        ∀ u ∈ (putTransaction s id body).1.docs, u._id = r._id → u.canEdit = false) ∧
    (∀ id : ObjectId,
        ∀ u ∈ (deleteTransaction s id).1.docs, u._id = r._id → u.canEdit = false) := by
  have hnd := reachable_nodup s hs
  have hsame : ∀ u : Transaction, u ∈ s.docs → u._id = r._id → u.canEdit = false :=
    fun u hmem hid => by rw [eq_of_same_id s.docs hnd u r hmem hr hid]; exact hflag
  have hpatched : ∀ (body : Body) (t : Transaction), t ∈ s.docs →
      (applyPatch body t)._id = r._id → t = r :=
    fun body t ht hid => eq_of_same_id s.docs hnd t r ht hr hid
  refine ⟨?_, ?_, ?_⟩
  · intro now a hsafe u hu hid
    cases a with
    | create newId body =>
      simp only [step, postSave] at hu
      cases hc : construct newId now body with
      | none => rw [hc] at hu; exact hsame u hu hid
      | some t =>
        rw [hc] at hu
        cases hf : findById s.docs t._id with
        | some v => simp only [hf, Option.isSome_some, if_true] at hu; exact hsame u hu hid
        | none =>
          simp only [hf, Option.isSome_none, Bool.false_eq_true, if_false] at hu
          rcases List.mem_append.mp hu with hu | hu
          · exact hsame u hu hid
          · rw [List.mem_singleton] at hu
            subst hu
            exact absurd hid.symm (findById_none _ _ hf r hr)
    | createResume t =>
      simp only [step, postResume] at hu
      split_ifs at hu <;> exact hsame u hu hid
    | update id body =>
      simp only [step] at hu
      cases hg : putGate s id with
      | none => rw [hg] at hu; exact hsame u hu hid
      | some refusal => rw [hg] at hu; exact hsame u hu hid
    | updateWrite id body =>
      simp only [step] at hu
      split_ifs at hu
      · rcases mem_putWrite _ _ _ _ hu with hu | ⟨t, ht, htid, hut⟩
        · exact hsame u hu hid
        · have htr : t = r := hpatched body t ht (by rw [← hut]; exact hid)
          have hidr : id = r._id := by rw [← htid, htr]
          have hce := hsafe body (by rw [hidr])
          rw [hut, htr]
          cases hb : body.canEdit with
          | none => simp [applyPatch, hb, hflag]
          | some b =>
            cases b
            · simp [applyPatch, hb]
            · exact absurd hb hce
      · exact hsame u hu hid
    | delete id =>
      simp only [step] at hu
      cases hg : deleteGate s id with
      | none => rw [hg] at hu; exact hsame u hu hid
      | some refusal => rw [hg] at hu; exact hsame u hu hid
    | deleteWrite id =>
      simp only [step, deleteWrite] at hu
      split_ifs at hu
      · exact hsame u ((findByIdAndDelete_sublist _ _).subset hu) hid
      · exact hsame u hu hid
    | lockTimer id =>
      simp only [step, lockTimeout] at hu
      split_ifs at hu
      · rcases mem_findByIdAndUpdate _ _ _ _ hu with hu | ⟨v, _, _, huv⟩
        · exact hsame u hu hid
        · rw [huv]
      · exact hsame u hu hid
  · intro id body u hu hid
    unfold putTransaction at hu
    cases hg : putGate s id with
    | some refusal => rw [hg] at hu; exact hsame u hu hid
    | none =>
      rw [hg] at hu
      rcases mem_putWrite _ _ _ _ hu with hu | ⟨t, ht, htid, hut⟩
      · exact hsame u hu hid
      · have htr : t = r := hpatched body t ht (by rw [← hut]; exact hid)
        have hfound : findById s.docs id = some r := by
          cases hf : findById s.docs id with
          | none => exact absurd htid (findById_none _ _ hf t ht)
          | some v =>
            obtain ⟨hv, hvid⟩ := findById_some _ _ _ hf
            rw [eq_of_same_id s.docs hnd v r hv hr (by rw [hvid, ← htid, htr])]
        rw [putGate_of_found s id r hfound, hflag] at hg
        simp at hg
  · intro id u hu hid
    unfold deleteTransaction at hu
    cases hg : deleteGate s id with
    | some refusal => rw [hg] at hu; exact hsame u hu hid
    | none =>
      rw [hg] at hu
      exact hsame u ((findByIdAndDelete_sublist _ _).subset hu) hid

/-- Witness for C3 amended: on the record stored with the flag false, the lock
timer, and a `PUT` with `canEdit: true` run without interruption. -/
theorem canEdit_monotonic_witness :
    Reachable lockedServer ∧ lockedDoc ∈ lockedServer.docs ∧ lockedDoc.canEdit = false ∧
    (∀ u ∈ (step 43200000 lockedServer (Action.lockTimer 1)).docs,
        u._id = lockedDoc._id → u.canEdit = false) ∧
    (∀ u ∈ (putTransaction lockedServer 1 unlockPatch).1.docs,
        u._id = lockedDoc._id → u.canEdit = false) :=
  ⟨Reachable.step _ _ _ (Reachable.step _ _ _ Reachable.init), by decide!, rfl,
   (canEdit_monotonic lockedServer (Reachable.step _ _ _ (Reachable.step _ _ _ Reachable.init))
      lockedDoc (by decide!) rfl).1 43200000 (Action.lockTimer 1) (fun body hb => by cases hb),
   (canEdit_monotonic lockedServer (Reachable.step _ _ _ (Reachable.step _ _ _ Reachable.init))
      lockedDoc (by decide!) rfl).2.1 1 unlockPatch⟩

theorem construct_spec (newId : ObjectId) (now : Int) (body : Body) :
    (bodyValid body → ∃ t : Transaction, construct newId now body = some t ∧
        t._id = body._id.getD newId ∧ t.canEdit = body.canEdit.getD true ∧
        t.division = body.division.getD "personal" ∧
        t.timestamp = body.timestamp.getD now ∧ some t.amount = body.amount) ∧
    (¬ bodyValid body → construct newId now body = none) := by
  obtain ⟨i, ty, am, de, ca, dv, ts, ce⟩ := body
  unfold bodyValid construct
  cases ty <;> cases am <;> cases de <;> cases ca <;> cases dv <;>
    simp [divisionValid] <;> intros <;> simp_all

/-- C10 as stated fails: a body with a negative amount is accepted with 201 and
stored, and a valid body that sends `canEdit: false` is stored with the flag
false. -/
theorem postTransaction_counterexample :
    negativeBody.amount = some (Amount.ofInt (-5)) ∧
    postTransaction Server.init 1 0 negativeBody =
        ({ docs := [negativeDoc], timers := [(1, 43200000)], inflight := [] },
          Response.doc 201 negativeDoc) ∧
    negativeDoc.amount.negative = true ∧
    postTransaction Server.init 1 0 lockedBody =
        ({ docs := [lockedDoc], timers := [(1, 43200000)], inflight := [] },
          Response.doc 201 lockedDoc) ∧
    lockedDoc.canEdit = false := by
  decide!

/-- C10 amended: create answers 201 exactly when the body has kind income or
expense, an amount (of any sign), a non-empty description, a non-empty category,
a division that is absent, `office` or `personal`, and an identifier that is not
stored yet; otherwise it answers 400 and the state is unchanged.  On success the
returned record is appended to the collection, its lock timer is registered 12
hours ahead, its `canEdit` is the one sent and true when none is sent, and its
division is the one sent and `personal` when none is sent. -/
theorem postTransaction_spec (s : Server) (newId : ObjectId) (now : Int) (body : Body) :
    ((postTransaction s newId now body).2.status = 201 ↔ createAccepts s newId body) ∧
    (¬ createAccepts s newId body →
        (postTransaction s newId now body).2.status = 400 ∧
        (postTransaction s newId now body).1 = s) ∧
    (createAccepts s newId body → ∃ t : Transaction,
        (postTransaction s newId now body).2 = Response.doc 201 t ∧
        (postTransaction s newId now body).1.docs = s.docs ++ [t] ∧
        (postTransaction s newId now body).1.timers = s.timers ++ [(t._id, now + lockDelay)] ∧
        some t.amount = body.amount ∧
        t.canEdit = body.canEdit.getD true ∧
        t.division = body.division.getD "personal") := by
  have hyes : createAccepts s newId body → ∃ t : Transaction,
      (postTransaction s newId now body).2 = Response.doc 201 t ∧
      (postTransaction s newId now body).1.docs = s.docs ++ [t] ∧
      (postTransaction s newId now body).1.timers = s.timers ++ [(t._id, now + lockDelay)] ∧
      some t.amount = body.amount ∧
      t.canEdit = body.canEdit.getD true ∧
      t.division = body.division.getD "personal" := by
    rintro ⟨hv, hfresh⟩
    obtain ⟨t, hc, hid, hce, hdv, _, ham⟩ := (construct_spec newId now body).1 hv
    have hf : findById s.docs t._id = none := by rw [hid]; exact hfresh
    refine ⟨t, ?_, ?_, ?_, ham, hce, hdv⟩ <;>
      simp [postTransaction, postSave, postResume, hc, hf]
  have hno : ¬ createAccepts s newId body →
      (postTransaction s newId now body).2.status = 400 ∧
      (postTransaction s newId now body).1 = s := by
    intro hna
    by_cases hv : bodyValid body
    · obtain ⟨t, hc, hid, _⟩ := (construct_spec newId now body).1 hv
      have hf : findById s.docs t._id ≠ none := by
        rw [hid]; exact fun hfresh => hna ⟨hv, hfresh⟩
      obtain ⟨v, hv2⟩ := Option.ne_none_iff_exists'.mp hf
      simp [postTransaction, postSave, hc, hv2, Response.status]
    · have hc := (construct_spec newId now body).2 hv
      simp [postTransaction, postSave, hc, Response.status]
  refine ⟨⟨?_, ?_⟩, hno, hyes⟩
  · intro h201
    by_contra hna
    rw [(hno hna).1] at h201
    exact absurd h201 (by decide)
  · intro ha
    obtain ⟨t, ht, _⟩ := hyes ha
    rw [ht]; rfl

end MoneyManager
